import Mathlib

set_option allowUnsafeReducibility true
attribute [local semireducible] Rat.mul Rat.add Rat.sub Rat.inv
set_option maxRecDepth 8192

/-!
Verification development for the kubernetes-resource-units library
(`src/index.ts`).

Embedding conventions (shallow embedding of the TypeScript source):

* JavaScript `number` values are modelled as exact rationals (`ℚ`);
  floating-point rounding is idealized away, except for the one place the
  source observes it directly: `Number.isFinite(parseFloat(...))`, which is
  modelled by the exact IEEE-754 double overflow threshold
  `2^1024 - 2^970` (a decimal literal rounds to `Infinity` exactly when its
  value reaches that midpoint under round-to-nearest-even).
* JavaScript `bigint` values are modelled as `ℤ`.  The dynamic
  `number | bigint` union becomes the tagged type `JSNum`.
* `BigInt(x)` applied to a `number` throws a `RangeError` unless `x` is an
  integer; this is modelled by `jsBigInt` returning `Except`.  Every other
  JS-level partiality (the two `throw` sites of `parseResource`) is also
  modelled with `Except`, so each fallible source function returns
  `Except JsError _`.
* `bigint / bigint` truncates toward zero: modelled by `Int.tdiv`.
* `Math.trunc` is modelled by `jsTrunc` (toward zero).
* `String(n)` inside `getPrecision` follows the ECMAScript
  Number-to-String algorithm on the idealized rational value: plain
  positional notation for decimal-point positions in (-6, 21] — where the
  digits after the point number the least `p` with `n * 10^p` integral —
  and exponential notation `d[.ddd]e±x` for positive magnitudes below
  1e-6 or at/above 1e21, where the characters counted after the point are
  the remaining significand digits plus the exponent tail.  `getPrecision`
  is modelled as that character count.
* The external locale-aware formatter (`Intl.NumberFormat` with
  `maximumFractionDigits: 100`, `useGrouping: false`, locale `en-US`) is a
  black-box collaborator of the library; it is modelled from the spec as
  the exact decimal rendering of a (nonnegative) decimal rational.
-/

namespace KRU

/-- Decidable equality for `Except`, so concrete runs of the embedded
functions can be checked by `decide`. -/
instance exceptDecEq {ε α : Type} [DecidableEq ε] [DecidableEq α] :
    DecidableEq (Except ε α) := fun x y =>
  match x, y with
  | .ok a, .ok b =>
      if h : a = b then .isTrue (by rw [h])
      else .isFalse (fun hc => h (Except.ok.inj hc))
  | .error a, .error b =>
      if h : a = b then .isTrue (by rw [h])
      else .isFalse (fun hc => h (Except.error.inj hc))
  | .ok _, .error _ => .isFalse (fun hc => Except.noConfusion hc)
  | .error _, .ok _ => .isFalse (fun hc => Except.noConfusion hc)

/-- A JavaScript `number | bigint` value.  `num` is a JS number (idealized
as an exact rational), `big` is a JS bigint. -/
inductive JSNum where
  | num (q : ℚ)
  | big (z : ℤ)
deriving DecidableEq

/-- The numeric value carried by a `JSNum`. -/
def JSNum.val : JSNum → ℚ
  | .num q => q
  | .big z => (z : ℚ)

/-- `typeof x === "bigint"`. -/
def JSNum.isBig : JSNum → Bool
  | .num _ => false
  | .big _ => true

/-- The errors the source can throw: the two `throw new Error` sites of
`parseResource` (grammar mismatch and the defensive non-finite check), and
the `RangeError` thrown by `BigInt(x)` on a non-integral number. -/
inductive JsError where
  | formatError (s : String)
  | numberError (s : String)
  | rangeError
deriving DecidableEq

/-- JS `BigInt(x)` for a number `x`: the integer value if `x` is integral,
otherwise a `RangeError`. -/
def jsBigInt (q : ℚ) : Except JsError ℤ :=
  if q.den = 1 then .ok q.num else .error .rangeError

/-- JS `Math.trunc`: round toward zero.  (`Int.tdiv q.num q.den` truncates
the fraction toward zero.) -/
def jsTrunc (q : ℚ) : ℤ := Int.tdiv q.num q.den

/-- The keys of the source's `unitMultiplier` table (`K8sResourceUnit`).
`empty` is the `""` key ("no unit"). -/
inductive RUnit where
  | u | m | k | M | G | T | P | E | empty | B | Ki | Mi | Gi | Ti | Pi | Ei
deriving DecidableEq

/-- The `unitMultiplier` table from `src/index.ts` lines 4-24.  `E`, `Pi`
and `Ei` are `bigint` entries in the source (`BigInt(10) ** BigInt(18)`,
`BigInt(1 << 30) * BigInt(1 << 20)`, `BigInt(1 << 30) * BigInt(1 << 30)`);
all other entries are numbers. -/
def unitMultiplier : RUnit → JSNum
  | .u => .num (1 / 1000000)
  | .m => .num (1 / 1000)
  | .k => .num 1000
  | .M => .num 1000000
  | .G => .num 1000000000
  | .T => .num 1000000000000
  | .P => .num 1000000000000000
  | .E => .big (10 ^ 18)
  | .empty => .num 1
  | .B => .num 1
  | .Ki => .num 1024
  | .Mi => .num 1048576
  | .Gi => .num 1073741824
  | .Ti => .num 1099511627776
  | .Pi => .big (2 ^ 50)
  | .Ei => .big (2 ^ 60)

/-- `K8sParsedResource`: a mantissa (JS number) and an optional unit.
`unit = none` is JS `undefined`. -/
structure K8sParsedResource where
  number : ℚ
  unit : Option RUnit
deriving DecidableEq

/-- JS truthiness of the `unit` parameter: `undefined` and the empty
string are falsy, every other unit token is truthy. -/
def unitTruthy : Option RUnit → Bool
  | none => false
  | some un => un != .empty

/-- `Number.MAX_SAFE_INTEGER` = 2^53 - 1. -/
def maxSafeInteger : ℚ := 9007199254740991

/-- The exact-value threshold at which `parseFloat` of a nonnegative
decimal literal rounds to `Infinity`: the midpoint between the largest
finite double and 2^1024 (round-to-nearest-even sends the midpoint up). -/
def jsOverflowThreshold : ℚ := ((2 ^ 1024 - 2 ^ 970 : ℕ) : ℚ)

/-- Fuel-driven multiplicity of `p` in `n` (number of times `p` divides
`n`).  Structural recursion on the fuel keeps it kernel-evaluable. -/
def pMultF : ℕ → ℕ → ℕ → ℕ
  | 0, _, _ => 0
  | fuel + 1, p, n => if 2 ≤ p ∧ 0 < n ∧ p ∣ n then pMultF fuel p (n / p) + 1 else 0

/-- Multiplicity of `p` in `n`; `n` steps of fuel always suffice for
`p ≥ 2` (the recursion stops after at most `log p n` steps). -/
def pMult (p n : ℕ) : ℕ := pMultF n p n

/-- Fuel-driven decimal-digit count (1 for 0); structural recursion on
the fuel keeps it kernel-evaluable. -/
def digitsF : ℕ → ℕ → ℕ
  | 0, _ => 1
  | fuel + 1, n => if n < 10 then 1 else digitsF fuel (n / 10) + 1

/-- Number of decimal digits of `n` (`n` itself is always enough fuel). -/
def digitCount (n : ℕ) : ℕ := digitsF n n

/-- Number of digits after the decimal point of the plain positional
decimal expansion of `q`: the least `p` with `q * 10^p` integral, i.e. the
larger of the 2-adic and 5-adic multiplicities of the reduced
denominator. -/
def decPrec (q : ℚ) : ℕ := max (pMult 2 q.den) (pMult 5 q.den)

/-- The integer significand of the decimal rendering of `q`:
`|q| * 10^decPrec q` (an integer whenever `q` is a finite decimal). -/
def sigNat (q : ℚ) : ℕ := (q * ((10 ^ decPrec q : ℕ) : ℚ)).num.natAbs

/-- Trailing-zero count of the significand. -/
def tzCount (q : ℚ) : ℕ := pMult 10 (sigNat q)

/-- Length of the significand digit string with trailing zeros stripped
(the `k` of the ECMAScript Number-to-String algorithm). -/
def sigLen (q : ℚ) : ℕ := digitCount (sigNat q / 10 ^ tzCount q)

/-- Position of the decimal point relative to the significand digits (the
`n` of the ECMAScript algorithm: the value is `s * 10^(n - k)`). -/
def decPos (q : ℚ) : ℤ := (sigLen q : ℤ) + (tzCount q : ℤ) - (decPrec q : ℤ)

/-- `getPrecision` from `src/index.ts` lines 65-70: the number of
characters after the decimal point of `String(n)`.  ECMAScript
Number-to-String renders a value whose decimal-point position `n` lies in
(-6, 21] positionally — an integer gets no point (0 characters after it),
otherwise the fraction has exactly `decPrec` digits — and every other
positive magnitude (below 1e-6 or at/above 1e21) exponentially as
`d[.ddd]e±x`: no point at all for a single-digit significand, else the
remaining `k - 1` significand digits plus the exponent tail `e`, sign, and
the decimal digits of the exponent. -/
def getPrecision (q : ℚ) : ℕ :=
  if q = 0 then 0
  else if 21 < decPos q then
    if sigLen q = 1 then 0
    else sigLen q - 1 + 2 + digitCount (decPos q - 1).toNat
  else if decPos q ≤ -6 then
    if sigLen q = 1 then 0
    else sigLen q - 1 + 2 + digitCount (1 - decPos q).toNat
  else decPrec q

/-- Multiplier resolution from `src/index.ts` line 81:
`unit === undefined ? 1 : unitMultiplier[unit]`. -/
def resolveMultiplier : Option RUnit → JSNum
  | none => .num 1
  | some un => unitMultiplier un

/-- `parsedResourceToBaseUnit` from `src/index.ts` lines 77-94.

If the multiplier is a bigint: `BigInt(number * 10^precision) * uMul /
BigInt(10^precision)` in bigint arithmetic (`/` truncating toward zero).
Otherwise `number * uMul` is returned as a number if it is at most
`Number.MAX_SAFE_INTEGER`, else the same precision-corrected bigint
computation is performed (`BigInt(uMul)` throwing a `RangeError` when the
multiplier is fractional). -/
def parsedResourceToBaseUnit (r : K8sParsedResource) : Except JsError JSNum :=
  match resolveMultiplier r.unit with
  | .big z =>
      let p := getPrecision r.number
      match jsBigInt (r.number * ((10 ^ p : ℕ) : ℚ)) with
      | .error e => .error e
      | .ok n => .ok (.big (Int.tdiv (n * z) ((10 ^ p : ℕ) : ℤ)))
  | .num uq =>
      if r.number * uq ≤ maxSafeInteger then .ok (.num (r.number * uq))
      else
        let p := getPrecision r.number
        match jsBigInt (r.number * ((10 ^ p : ℕ) : ℚ)) with
        | .error e => .error e
        | .ok n =>
            match jsBigInt uq with
            | .error e => .error e
            | .ok um => .ok (.big (Int.tdiv (n * um) ((10 ^ p : ℕ) : ℤ)))

/-- Splits a character list into its longest digit prefix and the rest
(the `\d+` / greedy-digit steps of the regex `reK8sResource`). -/
def takeDigits : List Char → List Char × List Char
  | [] => ([], [])
  | c :: cs =>
      if c.isDigit then
        let r := takeDigits cs
        (c :: r.1, r.2)
      else ([], c :: cs)

/-- Numeric value of a decimal digit character. -/
def digitVal (c : Char) : ℕ := c.toNat - 48

/-- Value of a digit string, most significant digit first. -/
def natOfDigits (l : List Char) : ℕ := l.foldl (fun a c => 10 * a + digitVal c) 0

/-- The number part of the regex `reK8sResource`
(`\d+(?:\.\d+)?(?:e\d+)?`, greedy): consumes the longest prefix of that
shape and returns the exact value `parseFloat` assigns to it together with
the unconsumed suffix; `none` when no leading digit exists.  Units start
with letters other than `e`, so greedy matching here coincides with the
regex's backtracking semantics. -/
def parseNumPart (l : List Char) : Option (ℚ × List Char) :=
  let d := takeDigits l
  if d.1.isEmpty then none
  else
    let fr : List Char × List Char :=
      match d.2 with
      | '.' :: t =>
          let fd := takeDigits t
          if fd.1.isEmpty then ([], d.2) else (fd.1, fd.2)
      | _ => ([], d.2)
    let ex : ℕ × List Char :=
      match fr.2 with
      | 'e' :: t =>
          let ed := takeDigits t
          if ed.1.isEmpty then (0, fr.2) else (natOfDigits ed.1, ed.2)
      | _ => (0, fr.2)
    let q : ℚ :=
      ((natOfDigits d.1 : ℚ) + (natOfDigits fr.1 : ℚ) / ((10 ^ fr.1.length : ℕ) : ℚ))
        * ((10 ^ ex.1 : ℕ) : ℚ)
    some (q, ex.2)

/-- The unit alternation of the regex
`(u|m|k|M|G|T|P|E|B|Ki|Mi|Gi|Ti|Pi|Ei)?` as an association list: the 15
unit tokens with their parsed units, plus the empty suffix for "no unit
captured" (JS `undefined`). -/
def unitTokens : List (List Char × Option RUnit) :=
  [([], none),
   (['u'], some .u), (['m'], some .m), (['k'], some .k), (['M'], some .M),
   (['G'], some .G), (['T'], some .T), (['P'], some .P), (['E'], some .E),
   (['B'], some .B),
   (['K', 'i'], some .Ki), (['M', 'i'], some .Mi), (['G', 'i'], some .Gi),
   (['T', 'i'], some .Ti), (['P', 'i'], some .Pi), (['E', 'i'], some .Ei)]

/-- Maps the suffix left over after the number part to the parsed unit:
`some` of the captured unit if the suffix is empty or a unit token,
`none` when the suffix is anything else (the whole regex match fails). -/
def unitOfChars (l : List Char) : Option (Option RUnit) := unitTokens.lookup l

/-- `parseResource` from `src/index.ts` lines 44-63: match the whole
input against `reK8sResource` (grammar mismatch throws the "not a valid
resource string" error), then defensively check that `parseFloat` of the
number part is finite (a value at or beyond the double overflow threshold
is `Infinity` and throws the second error). -/
def parseResource (s : String) : Except JsError K8sParsedResource :=
  match parseNumPart s.data with
  | none => .error (.formatError s)
  | some pr =>
      match unitOfChars pr.2 with
      | none => .error (.formatError s)
      | some un =>
          if jsOverflowThreshold ≤ pr.1 then .error (.numberError s)
          else .ok ⟨pr.1, un⟩

/-- `resourceStringToBaseUnit` from `src/index.ts` lines 101-102. -/
def resourceStringToBaseUnit (s : String) : Except JsError JSNum :=
  match parseResource s with
  | .error e => .error e
  | .ok r => parsedResourceToBaseUnit r

/-- `BigInt(x)` applied to a `number | bigint` value (identity on
bigints). -/
def jsNumToBig : JSNum → Except JsError ℤ
  | .num q => jsBigInt q
  | .big z => .ok z

/-- `compareParsedResources` from `src/index.ts` lines 108-123.  Identical
units compare mantissas directly; otherwise both are scaled to base units
and compared, promoting both to bigint (`BigInt` of a fractional number
throwing) unless both are numbers.  `slowCompare` is the body of the
different-units branch (lines 115-122). -/
def slowCompare (bA bB : JSNum) : Except JsError ℤ :=
  match bA, bB with
  | .num x, .num y => .ok (if x = y then 0 else if y < x then 1 else -1)
  | _, _ =>
      match jsNumToBig bA with
      | .error e => .error e
      | .ok zA =>
          match jsNumToBig bB with
          | .error e => .error e
          | .ok zB => .ok (if zA = zB then 0 else if zB < zA then 1 else -1)

def compareParsedResources (a b : K8sParsedResource) : Except JsError ℤ :=
  if a.unit = b.unit then
    .ok (if a.number = b.number then 0 else if b.number < a.number then 1 else -1)
  else
    match parsedResourceToBaseUnit a with
    | .error e => .error e
    | .ok bA =>
        match parsedResourceToBaseUnit b with
        | .error e => .error e
        | .ok bB => slowCompare bA bB

/-- `compareResourceStrings` from `src/index.ts` lines 129-131. -/
def compareResourceStrings (a b : String) : Except JsError ℤ :=
  match parseResource a with
  | .error e => .error e
  | .ok pa =>
      match parseResource b with
      | .error e => .error e
      | .ok pb => compareParsedResources pa pb

/-- The `cpuUnits` list from `src/index.ts` lines 152-162 (note `""` sits
between `k` and `M`). -/
def cpuUnits : List RUnit := [.u, .m, .k, .empty, .M, .G, .T, .P, .E]

/-- The `memoryUnits` list from `src/index.ts` lines 207-215. -/
def memoryUnits : List RUnit := [.empty, .Ki, .Mi, .Gi, .Ti, .Pi, .Ei]

/-- One loop iteration's multiplier setup in the auto-selection loop of
`scaleBaseUnitCpu`/`scaleBaseUnitMemory`: when the base value is a bigint
the table multiplier is promoted with `BigInt(...)` (throwing on the
fractional multipliers of `u` and `m`); otherwise it is used as stored. -/
def promoteStep (x : JSNum) (un : RUnit) : Except JsError JSNum :=
  if x.isBig then
    match unitMultiplier un with
    | .num q =>
        match jsBigInt q with
        | .error e => .error e
        | .ok z => .ok (.big z)
    | .big z => .ok (.big z)
  else .ok (unitMultiplier un)

/-- The `n >= multiplier` comparison of the auto-selection loop: when the
base value is a number and the multiplier a bigint, the base value is
truncated toward zero for the comparison (`BigInt(Math.trunc(...))`);
otherwise both sides already share a type and compare by value. -/
def scanGE (x : JSNum) (mult : JSNum) : Bool :=
  match x, mult with
  | .num q, .big z => decide (z ≤ jsTrunc q)
  | _, _ => decide (mult.val ≤ x.val)

/-- The `while (i--)` auto-selection loop, acting on the scanned units in
iteration order (the reversed prefix of the family list).  Stops at the
first unit with `n >= multiplier`; when no unit satisfies it the loop
terminates having last assigned the final unit and its multiplier.  An
empty scan list leaves the initial `multiplier = 1` and `unit` parameter
(i.e. `undefined`) untouched. -/
def autoSelect (x : JSNum) : List RUnit → Except JsError (Option RUnit × JSNum)
  | [] => .ok (none, .num 1)
  | un :: rest =>
      match promoteStep x un with
      | .error e => .error e
      | .ok mult =>
          if scanGE x mult then .ok (some un, mult)
          else
            match rest with
            | [] => .ok (some un, mult)
            | _ => autoSelect x rest

/-- The multiplier setup of the explicit-unit branch (`if (unit)`),
`src/index.ts` line 178 / 231: `isNumBig ? BigInt(unitMultiplier[unit]) :
unitMultiplier[unit]`. -/
def explicitMult (x : JSNum) (un : RUnit) : Except JsError JSNum :=
  if x.isBig then
    match unitMultiplier un with
    | .num q =>
        match jsBigInt q with
        | .error e => .error e
        | .ok z => .ok (.big z)
    | .big z => .ok (.big z)
  else .ok (unitMultiplier un)

/-- The final division of `scaleBaseUnitCpu`/`scaleBaseUnitMemory`
(lines 199-204 / 249-254): mixed representations are both converted with
`BigInt` and divided as bigints (truncating; `BigInt` of a fractional
number throwing); matching representations divide directly (for two
bigints the `/` operator truncates).  The result is narrowed with
`Number(...)`, modelled as the rational value. -/
def finishScale (x : JSNum) (selUnit : Option RUnit) (mult : JSNum) :
    Except JsError K8sParsedResource :=
  match x, mult with
  | .big a, .big b => .ok ⟨((Int.tdiv a b : ℤ) : ℚ), selUnit⟩
  | .num a, .num b => .ok ⟨a / b, selUnit⟩
  | .big a, .num b =>
      match jsBigInt b with
      | .error e => .error e
      | .ok zb => .ok ⟨((Int.tdiv a zb : ℤ) : ℚ), selUnit⟩
  | .num a, .big b =>
      match jsBigInt a with
      | .error e => .error e
      | .ok za => .ok ⟨((Int.tdiv za b : ℤ) : ℚ), selUnit⟩

/-- The unit-omitted (or falsy `""`) path of `scaleBaseUnitCpu`: a zero
base value short-circuits to `{number: 0, unit: undefined}`; otherwise the
scan starts at index 3 (`k`) for values below 1 and at the end of
`cpuUnits` otherwise. -/
def scaleCpuAuto (x : JSNum) : Except JsError K8sParsedResource :=
  if x.val = 0 then .ok ⟨0, none⟩
  else
    let count := if x.val < 1 then 3 else cpuUnits.length
    match autoSelect x (cpuUnits.take count).reverse with
    | .error e => .error e
    | .ok sel => finishScale x sel.1 sel.2

/-- `scaleBaseUnitCpu` from `src/index.ts` lines 171-205.  `if (unit)` is
JS truthiness, so an explicit `""` unit falls through to auto-selection. -/
def scaleBaseUnitCpu (x : JSNum) (unit? : Option RUnit) :
    Except JsError K8sParsedResource :=
  match unit? with
  | some un =>
      if un = .empty then scaleCpuAuto x
      else
        match explicitMult x un with
        | .error e => .error e
        | .ok mult => finishScale x (some un) mult
  | none => scaleCpuAuto x

/-- The unit-omitted (or falsy `""`) path of `scaleBaseUnitMemory`: no
zero short-circuit, the scan always covers the whole family list. -/
def scaleMemoryAuto (x : JSNum) : Except JsError K8sParsedResource :=
  match autoSelect x memoryUnits.reverse with
  | .error e => .error e
  | .ok sel => finishScale x sel.1 sel.2

/-- `scaleBaseUnitMemory` from `src/index.ts` lines 224-255. -/
def scaleBaseUnitMemory (x : JSNum) (unit? : Option RUnit) :
    Except JsError K8sParsedResource :=
  match unit? with
  | some un =>
      if un = .empty then scaleMemoryAuto x
      else
        match explicitMult x un with
        | .error e => .error e
        | .ok mult => finishScale x (some un) mult
  | none => scaleMemoryAuto x

/-- Decimal-digit rendering of a natural number, padded on the left with
zeros to `width` characters. -/
def zeroPad (width : ℕ) (s : String) : String :=
  String.mk (List.replicate (width - s.length) '0') ++ s

/-- Modelled from the spec: the external locale-aware formatter (§6 of
the spec; `Intl.NumberFormat` with locale `en-US`,
`maximumFractionDigits: 100`, `useGrouping: false`) applied to a
nonnegative decimal rational renders its exact decimal expansion with no
grouping and no trailing fractional zeros. -/
def renderNumber (q : ℚ) : String :=
  let p := decPrec q
  if p = 0 then toString q.num
  else
    let ip : ℤ := ⌊q⌋
    let fracNat : ℤ := ((q - (ip : ℚ)) * ((10 ^ p : ℕ) : ℚ)).num
    toString ip ++ "." ++ zeroPad p (toString fracNat)

/-- The string token appended for a unit (`parsedResource.unit ?? ""`). -/
def unitToString : Option RUnit → String
  | none => ""
  | some .u => "u"
  | some .m => "m"
  | some .k => "k"
  | some .M => "M"
  | some .G => "G"
  | some .T => "T"
  | some .P => "P"
  | some .E => "E"
  | some .empty => ""
  | some .B => "B"
  | some .Ki => "Ki"
  | some .Mi => "Mi"
  | some .Gi => "Gi"
  | some .Ti => "Ti"
  | some .Pi => "Pi"
  | some .Ei => "Ei"

/-- `formatParsedResource` from `src/index.ts` lines 139-150 with the
default options (the `Intl.NumberFormat` collaborator is modelled by
`renderNumber`). -/
def formatParsedResource (r : K8sParsedResource) : String :=
  renderNumber r.number ++ unitToString r.unit

/-- `formatBaseUnitCpu` from `src/index.ts` lines 264-275 (the `unit`
option is the only one the numeric model observes; the remaining options
only affect the external formatter's cosmetics). -/
def formatBaseUnitCpu (x : JSNum) (unit? : Option RUnit) : Except JsError String :=
  match scaleBaseUnitCpu x unit? with
  | .error e => .error e
  | .ok r => .ok (formatParsedResource r)

/-- `formatBaseUnitMemory` from `src/index.ts` lines 284-295. -/
def formatBaseUnitMemory (x : JSNum) (unit? : Option RUnit) : Except JsError String :=
  match scaleBaseUnitMemory x unit? with
  | .error e => .error e
  | .ok r => .ok (formatParsedResource r)

/-- `add` from `src/index.ts` lines 300-308: if either operand is a
bigint both are converted with `BigInt` (throwing on a fractional number)
and added as bigints, otherwise the numbers are added. -/
def add (a b : JSNum) : Except JsError JSNum :=
  match a, b with
  | .num x, .num y => .ok (.num (x + y))
  | _, _ =>
      match (match a with | .num q => jsBigInt q | .big z => .ok z) with
      | .error e => .error e
      | .ok za =>
          match (match b with | .num q => jsBigInt q | .big z => .ok z) with
          | .error e => .error e
          | .ok zb => .ok (.big (za + zb))

/-- Spec-side description of the selection loop: the first unit of the
scan list satisfying the `value >= multiplier` comparison, falling back to
the last scanned unit when none does. -/
def firstQualifying (x : JSNum) : List RUnit → Option RUnit
  | [] => none
  | [un] => some un
  | un :: rest =>
      if scanGE x (unitMultiplier un) then some un else firstQualifying x rest

/-- Spec-side mathematical base value of a quantity: mantissa times the
unit's multiplier, with no truncation.  "Base values numerically equal" in
the claim means equality of these. -/
def exactBaseVal (r : K8sParsedResource) : ℚ :=
  r.number * (resolveMultiplier r.unit).val

/-- The three-way comparison the comparator is supposed to realize. -/
def cmpSign (x y : ℚ) : ℤ := if x = y then 0 else if y < x then 1 else -1

/-- Head condition under which the greedy digit scan consumes nothing:
the list is empty or starts with a non-digit. -/
def headOk : List Char → Bool
  | [] => true
  | c :: _ => !c.isDigit

/-- A nonempty all-digit character list (`\d+` in the grammar). -/
def isDigits (l : List Char) : Bool := !l.isEmpty && l.all Char.isDigit

/-- Optional grammar component introduced by a marker character: absent,
or the marker followed by its body (`(?:\.\d+)?` and `(?:e\d+)?`). -/
def optPart (c : Char) : Option (List Char) → List Char
  | none => []
  | some l => c :: l

/-- Head condition a unit suffix satisfies: empty, or a head that is not
a digit, not `'e'` and not `'.'` — so the greedy number parse stops
exactly at the unit. -/
def unitHead : List Char → Bool
  | [] => true
  | c :: _ => !c.isDigit && c != 'e' && c != '.'

/-- The 16 admissible unit suffixes of the grammar (the 15 unit tokens
and the empty suffix). -/
def grammarUnits : List (List Char) := unitTokens.map Prod.fst

/-- Exact decimal value of a grammar decomposition
`digits [. digits] [e digits]`, as `parseFloat` reads it. -/
def splitValue (d : List Char) (f e : Option (List Char)) : ℚ :=
  ((natOfDigits d : ℚ) + (natOfDigits (f.getD []) : ℚ) / ((10 ^ (f.getD []).length : ℕ) : ℚ))
    * ((10 ^ natOfDigits (e.getD []) : ℕ) : ℚ)

/-- Spec-side grammar decomposition of a character list: integer digits
`d`, optional fractional digits `f`, optional exponent digits `e`, and a
remaining suffix `u`.  This transcribes the number part of the spec's
grammar `\d+(?:\.\d+)?(?:e\d+)?` literally. -/
def grammarParts (l d : List Char) (f e : Option (List Char)) (u : List Char) : Prop :=
  l = d ++ optPart '.' f ++ optPart 'e' e ++ u ∧ isDigits d = true ∧
    (∀ fd, f = some fd → isDigits fd = true) ∧ (∀ ed, e = some ed → isDigits ed = true)

/-- A string fully matches the spec's grammar `reK8sResource`: it splits
into a number part and one of the 16 admissible unit suffixes. -/
def grammarMatch (s : String) : Prop :=
  ∃ d f e u, grammarParts s.data d f e u ∧ u ∈ grammarUnits

/-! ### Characterization of `getPrecision` -/

lemma pMultF_spec (fuel : ℕ) : ∀ p n : ℕ, 2 ≤ p → 0 < n → n ≤ fuel →
    p ^ pMultF fuel p n ∣ n ∧ ¬ p ^ (pMultF fuel p n + 1) ∣ n := by
  induction fuel with
  | zero => intro p n _ hn hf; omega
  | succ f ih =>
      intro p n hp hn hf
      rw [pMultF]
      by_cases hdvd : p ∣ n
      · rw [if_pos ⟨hp, hn, hdvd⟩]
        obtain ⟨c, rfl⟩ := hdvd
        have hc : 0 < c := by
          rcases Nat.eq_zero_or_pos c with h0 | h0
          · subst h0; simp at hn
          · exact h0
        have h2c : 2 * c ≤ p * c := Nat.mul_le_mul_right c hp
        have hle : c ≤ f := by omega
        rw [Nat.mul_div_cancel_left c (by omega : 0 < p)]
        have hrec := ih p c hp hc hle
        refine ⟨?_, ?_⟩
        · rw [pow_succ, mul_comm (p ^ pMultF f p c) p]
          exact mul_dvd_mul_left p hrec.1
        · intro hcon
          apply hrec.2
          rw [pow_succ, mul_comm _ p] at hcon
          have hstep : p * p ^ (pMultF f p c + 1) ∣ p * c := by
            rw [pow_succ, mul_comm (p ^ pMultF f p c) p, ← mul_assoc] at hcon ⊢
            exact hcon
          exact (Nat.mul_dvd_mul_iff_left (by omega : 0 < p)).mp hstep
      · rw [if_neg (by tauto)]
        refine ⟨by simp, ?_⟩
        intro hcon
        exact hdvd (by simpa using hcon)

lemma pMult_spec (p n : ℕ) (hp : 2 ≤ p) (hn : 0 < n) :
    p ^ pMult p n ∣ n ∧ ¬ p ^ (pMult p n + 1) ∣ n :=
  pMultF_spec n p n hp hn le_rfl

lemma pMult_unique (p n a : ℕ) (hp : 2 ≤ p) (hn : 0 < n)
    (h1 : p ^ a ∣ n) (h2 : ¬ p ^ (a + 1) ∣ n) : pMult p n = a := by
  have hs := pMult_spec p n hp hn
  rcases Nat.lt_trichotomy (pMult p n) a with h | h | h
  · exact absurd ((pow_dvd_pow p (by omega : pMult p n + 1 ≤ a)).trans h1) hs.2
  · exact h
  · exact absurd ((pow_dvd_pow p (by omega : a + 1 ≤ pMult p n)).trans hs.1) h2

/-- Integrality of `q * 10^k` is exactly divisibility of the reduced
denominator by `10^k`. -/
lemma den_mul_pow_eq_one_iff (q : ℚ) (k : ℕ) :
    (q * ((10 ^ k : ℕ) : ℚ)).den = 1 ↔ q.den ∣ 10 ^ k := by
  constructor
  · intro h
    have hz : (((q * ((10 ^ k : ℕ) : ℚ)).num : ℤ) : ℚ) = q * ((10 ^ k : ℕ) : ℚ) :=
      Rat.coe_int_num_of_den_eq_one h
    have hBne : ((10 ^ k : ℕ) : ℚ) ≠ 0 := by positivity
    have hq : q = (((q * ((10 ^ k : ℕ) : ℚ)).num : ℤ) : ℚ) / (((10 ^ k : ℕ) : ℤ) : ℚ) := by
      rw [hz]
      push_cast
      field_simp
    have hdvd := Rat.den_dvd ((q * ((10 ^ k : ℕ) : ℚ)).num) ((10 ^ k : ℕ) : ℤ)
    rw [Rat.divInt_eq_div, ← hq] at hdvd
    exact_mod_cast hdvd
  · intro h
    obtain ⟨c, hc⟩ := h
    have hden : (q.den : ℚ) ≠ 0 := by
      exact_mod_cast q.den_ne_zero
    have heq : q * ((10 ^ k : ℕ) : ℚ) = ((q.num * (c : ℤ) : ℤ) : ℚ) := by
      conv_lhs => rw [← Rat.num_div_den q]
      rw [hc]
      push_cast
      field_simp
      ring
    rw [heq, Rat.den_intCast]

/-- A divisor of a power of 10 is a 2-5 number: it is decomposed exactly
by its 2-adic and 5-adic multiplicities, both at most the exponent. -/
lemma dvd_pow_ten_facts (n k : ℕ) (hn : 0 < n) (hd : n ∣ 10 ^ k) :
    n = 2 ^ pMult 2 n * 5 ^ pMult 5 n ∧ pMult 2 n ≤ k ∧ pMult 5 n ≤ k := by
  have hcop : Nat.Coprime (2 ^ k) (5 ^ k) := Nat.Coprime.pow _ _ (by decide)
  have h10 : (10 : ℕ) ^ k = 2 ^ k * 5 ^ k := by rw [← Nat.mul_pow]
  have hmul : Nat.gcd n (2 ^ k) * Nat.gcd n (5 ^ k) = n :=
    (Nat.gcd_mul_gcd_eq_iff_dvd_mul_of_coprime hcop).mpr (by rw [← h10]; exact hd)
  obtain ⟨a, ha_le, ha⟩ := (Nat.dvd_prime_pow Nat.prime_two).mp (Nat.gcd_dvd_right n (2 ^ k))
  obtain ⟨b, hb_le, hb⟩ :=
    (Nat.dvd_prime_pow (by norm_num : Nat.Prime 5)).mp (Nat.gcd_dvd_right n (5 ^ k))
  have hden : n = 2 ^ a * 5 ^ b := by rw [← hmul, ha, hb]
  have h2 : pMult 2 n = a := by
    apply pMult_unique 2 n a (by norm_num) hn
    · rw [hden]; exact dvd_mul_right _ _
    · intro hcon
      rw [hden, pow_succ] at hcon
      have : 2 ∣ 5 ^ b := (Nat.mul_dvd_mul_iff_left (Nat.pos_pow_of_pos a (by norm_num))).mp hcon
      have := Nat.Prime.dvd_of_dvd_pow Nat.prime_two this
      omega
  have h5 : pMult 5 n = b := by
    apply pMult_unique 5 n b (by norm_num) hn
    · rw [hden]; exact dvd_mul_left _ _
    · intro hcon
      rw [hden, pow_succ, mul_comm (2 ^ a) (5 ^ b)] at hcon
      have : 5 ∣ 2 ^ a := (Nat.mul_dvd_mul_iff_left (Nat.pos_pow_of_pos b (by norm_num))).mp hcon
      have := Nat.Prime.dvd_of_dvd_pow (by norm_num : Nat.Prime 5) this
      omega
  refine ⟨?_, ?_, ?_⟩
  · rw [h2, h5]; exact hden
  · rw [h2]; exact ha_le
  · rw [h5]; exact hb_le

/-- Converse: a 2-5 number divides `10^k` once `k` dominates both
multiplicities. -/
lemma dvd_pow_ten_of_le (n k : ℕ)
    (hsm : n = 2 ^ pMult 2 n * 5 ^ pMult 5 n)
    (h2 : pMult 2 n ≤ k) (h5 : pMult 5 n ≤ k) : n ∣ 10 ^ k := by
  have h10 : (10 : ℕ) ^ k = 2 ^ k * 5 ^ k := by rw [← Nat.mul_pow]
  have hdvd := Nat.mul_dvd_mul (pow_dvd_pow 2 h2) (pow_dvd_pow 5 h5)
  rw [h10, hsm]
  exact hdvd

/-- `decPrec` computes the least `p` with `q * 10^p` integral, given that
one exists and is minimal. -/
lemma decPrec_spec (q : ℚ) (p : ℕ)
    (h1 : (q * ((10 ^ p : ℕ) : ℚ)).den = 1)
    (hmin : ∀ k < p, (q * ((10 ^ k : ℕ) : ℚ)).den ≠ 1) :
    decPrec q = p := by
  have hd : q.den ∣ 10 ^ p := (den_mul_pow_eq_one_iff q p).mp h1
  obtain ⟨hsm, h2, h5⟩ := dvd_pow_ten_facts q.den p q.pos hd
  have hle : decPrec q ≤ p := max_le h2 h5
  rcases Nat.lt_or_ge (decPrec q) p with hlt | hge
  · exfalso
    apply hmin (decPrec q) hlt
    exact (den_mul_pow_eq_one_iff q _).mpr
      (dvd_pow_ten_of_le q.den _ hsm (le_max_left _ _) (le_max_right _ _))
  · omega

/-! ### Digit counts and the rendering regimes of `getPrecision` -/

lemma digitsF_pos (fuel n : ℕ) : 1 ≤ digitsF fuel n := by
  cases fuel with
  | zero => exact le_refl 1
  | succ f => rw [digitsF]; split <;> omega

lemma digitsF_spec (fuel : ℕ) : ∀ n : ℕ, 1 ≤ n → n ≤ fuel →
    10 ^ (digitsF fuel n - 1) ≤ n ∧ n < 10 ^ digitsF fuel n := by
  induction fuel with
  | zero => intro n h1 h2; omega
  | succ f ih =>
      intro n h1 h2
      rw [digitsF]
      by_cases h10 : n < 10
      · rw [if_pos h10]
        exact ⟨by simpa using h1, by simpa using h10⟩
      · rw [if_neg h10]
        push_neg at h10
        have hq1 : 1 ≤ n / 10 := (Nat.one_le_div_iff (by norm_num)).mpr h10
        have hlt : n / 10 < n := Nat.div_lt_self (by omega) (by norm_num)
        obtain ⟨hlo, hhi⟩ := ih (n / 10) hq1 (by omega)
        have hd1 : 1 ≤ digitsF f (n / 10) := digitsF_pos f (n / 10)
        have hmod := Nat.div_add_mod n 10
        have hm : n % 10 < 10 := Nat.mod_lt n (by norm_num)
        constructor
        · have hstep : (10 : ℕ) ^ (digitsF f (n / 10) + 1 - 1) =
              10 * 10 ^ (digitsF f (n / 10) - 1) := by
            rw [Nat.add_sub_cancel, ← pow_succ']
            congr 1
            omega
          rw [hstep]
          have h1 := Nat.mul_le_mul_left 10 hlo
          omega
        · have h2 : n / 10 + 1 ≤ 10 ^ digitsF f (n / 10) := hhi
          have h3 := Nat.mul_le_mul_left 10 h2
          have h4 : (10 : ℕ) ^ (digitsF f (n / 10) + 1) = 10 * 10 ^ digitsF f (n / 10) :=
            pow_succ' 10 _
          omega

lemma digitCount_spec (n : ℕ) (hn : 1 ≤ n) :
    10 ^ (digitCount n - 1) ≤ n ∧ n < 10 ^ digitCount n :=
  digitsF_spec n n hn le_rfl

lemma digitCount_pos (n : ℕ) : 1 ≤ digitCount n := digitsF_pos n n

lemma add_four_le_pow (e : ℕ) (he : 1 ≤ e) : e + 4 ≤ 10 ^ e := by
  induction e with
  | zero => omega
  | succ f ih =>
      rcases Nat.eq_zero_or_pos f with h0 | h0
      · subst h0; norm_num
      · have hf := ih h0
        have hp : 1 ≤ (10 : ℕ) ^ f := Nat.one_le_pow _ _ (by norm_num)
        have hmul : (10 : ℕ) ^ (f + 1) = 10 ^ f + 10 ^ f * 9 := by ring
        have h9 := Nat.mul_le_mul_left 9 hp
        omega

/-- Digit counts grow logarithmically: from 7 on, `digitCount m + 2 < m`. -/
lemma digitCount_add_two_lt (m : ℕ) (hm : 7 ≤ m) : digitCount m + 2 < m := by
  rcases Nat.lt_or_ge (digitCount m) 3 with h | h
  · omega
  · have hs := (digitCount_spec m (by omega)).1
    have hbound : digitCount m + 3 ≤ 10 ^ (digitCount m - 1) := by
      have he : 1 ≤ digitCount m - 1 := by omega
      have := add_four_le_pow (digitCount m - 1) he
      omega
    omega

/-- Decomposition of a positive finite decimal: the significand is the
exact scaled value, positive, has no trailing zeros when the value is not
integral, and is bracketed by the powers of ten its digit count names. -/
lemma sig_decomp (q : ℚ) (h0 : 0 < q)
    (hsm : (q * ((10 ^ decPrec q : ℕ) : ℚ)).den = 1) :
    ((sigNat q : ℚ) = q * ((10 ^ decPrec q : ℕ) : ℚ)) ∧
    1 ≤ sigNat q ∧
    (1 ≤ decPrec q → tzCount q = 0) ∧
    10 ^ (sigLen q - 1 + tzCount q) ≤ sigNat q ∧
    sigNat q < 10 ^ (sigLen q + tzCount q) := by
  have hprod : (0 : ℚ) < q * ((10 ^ decPrec q : ℕ) : ℚ) := by positivity
  have hnum : ((q * ((10 ^ decPrec q : ℕ) : ℚ)).num : ℚ) = q * ((10 ^ decPrec q : ℕ) : ℚ) :=
    Rat.coe_int_num_of_den_eq_one hsm
  have hnum_pos : 0 < (q * ((10 ^ decPrec q : ℕ) : ℚ)).num := by
    rw [Rat.num_pos]
    exact hprod
  have hsig : ((sigNat q : ℕ) : ℤ) = (q * ((10 ^ decPrec q : ℕ) : ℚ)).num :=
    Int.natAbs_of_nonneg hnum_pos.le
  have hval : ((sigNat q : ℕ) : ℚ) = q * ((10 ^ decPrec q : ℕ) : ℚ) := by
    rw [← hnum]
    exact_mod_cast congrArg (fun z : ℤ => (z : ℚ)) hsig
  have hN1 : 1 ≤ sigNat q := by
    rcases Nat.eq_zero_or_pos (sigNat q) with h | h
    · exfalso
      have hv0 := hval
      rw [h] at hv0
      push_cast at hv0
      linarith
    · exact h
  have hdvd10 : 10 ^ tzCount q ∣ sigNat q := (pMult_spec 10 (sigNat q) (by norm_num) hN1).1
  have hdm : sigNat q / 10 ^ tzCount q * 10 ^ tzCount q = sigNat q := Nat.div_mul_cancel hdvd10
  have hs1 : 1 ≤ sigNat q / 10 ^ tzCount q := by
    rcases Nat.eq_zero_or_pos (sigNat q / 10 ^ tzCount q) with h | h
    · rw [h] at hdm
      omega
    · exact h
  obtain ⟨hbl, hbh⟩ := digitCount_spec _ hs1
  refine ⟨hval, hN1, ?_, ?_, ?_⟩
  · intro hp1
    by_contra hc
    have hdvd : (10 : ℕ) ∣ sigNat q :=
      dvd_trans (dvd_pow_self 10 (by omega : tzCount q ≠ 0)) hdvd10
    obtain ⟨N', hN'⟩ := hdvd
    have hq' : q * ((10 ^ (decPrec q - 1) : ℕ) : ℚ) = ((N' : ℕ) : ℚ) := by
      have h10 : ((10 ^ decPrec q : ℕ) : ℚ) = ((10 ^ (decPrec q - 1) : ℕ) : ℚ) * 10 := by
        push_cast
        rw [← pow_succ]
        congr 1
        omega
      have hv := hval
      rw [hN', h10] at hv
      push_cast at hv ⊢
      linarith
    have hden1 : (q * ((10 ^ (decPrec q - 1) : ℕ) : ℚ)).den = 1 := by
      rw [hq', Rat.den_natCast]
    have hdvd' : q.den ∣ 10 ^ (decPrec q - 1) := (den_mul_pow_eq_one_iff q _).mp hden1
    obtain ⟨_, h2, h5⟩ := dvd_pow_ten_facts q.den _ q.pos hdvd'
    have hfin : decPrec q ≤ decPrec q - 1 := max_le h2 h5
    omega
  · calc 10 ^ (sigLen q - 1 + tzCount q)
        = 10 ^ (sigLen q - 1) * 10 ^ tzCount q := pow_add 10 _ _
      _ ≤ sigNat q / 10 ^ tzCount q * 10 ^ tzCount q := Nat.mul_le_mul_right _ hbl
      _ = sigNat q := hdm
  · calc sigNat q = sigNat q / 10 ^ tzCount q * 10 ^ tzCount q := hdm.symm
      _ < 10 ^ sigLen q * 10 ^ tzCount q := by
          have hp : 0 < (10 : ℕ) ^ tzCount q := Nat.pos_pow_of_pos _ (by norm_num)
          exact Nat.mul_lt_mul_of_lt_of_le hbh (le_refl _) hp
      _ = 10 ^ (sigLen q + tzCount q) := (pow_add 10 _ _).symm


/-- For values at least 1e-6 the rendered precision dominates the
positional one, so the `10^precision` correction keeps the scaled mantissa
integral. -/
lemma prec_integral_of_ge (q : ℚ) (h6 : 1 / 1000000 ≤ q)
    (hsm : (q * ((10 ^ decPrec q : ℕ) : ℚ)).den = 1) :
    (q * ((10 ^ getPrecision q : ℕ) : ℚ)).den = 1 ∧ decPrec q ≤ getPrecision q := by
  have h0 : (0 : ℚ) < q := lt_of_lt_of_le (by norm_num) h6
  obtain ⟨hval, hN1, htz, hlo, hhi⟩ := sig_decomp q h0 hsm
  have key : decPrec q ≤ getPrecision q := by
    unfold getPrecision
    rw [if_neg h0.ne']
    by_cases hbig : 21 < decPos q
    · rw [if_pos hbig]
      rcases Nat.eq_zero_or_pos (decPrec q) with hp0 | hp0
      · rw [hp0]
        exact Nat.zero_le _
      · have ht0 : tzCount q = 0 := htz hp0
        have hpos' : (decPrec q : ℤ) < sigLen q := by
          unfold decPos at hbig
          omega
        by_cases hk1 : sigLen q = 1
        · exfalso
          unfold decPos at hbig
          rw [hk1, ht0] at hbig
          push_cast at hbig
          omega
        · rw [if_neg hk1]
          have hk := digitCount_pos (decPos q - 1).toNat
          omega
    · rw [if_neg hbig]
      by_cases hneg : decPos q ≤ -6
      · exfalso
        have hexp : sigLen q + tzCount q + 6 ≤ decPrec q := by
          unfold decPos at hneg
          omega
        have hlt : sigNat q < 10 ^ (decPrec q - 6) :=
          lt_of_lt_of_le hhi (Nat.pow_le_pow_right (by norm_num) (by omega))
        have hq6 : q * ((10 ^ decPrec q : ℕ) : ℚ) < ((10 ^ (decPrec q - 6) : ℕ) : ℚ) := by
          rw [← hval]
          exact_mod_cast hlt
        have hP : (0 : ℚ) < ((10 ^ decPrec q : ℕ) : ℚ) := by positivity
        have hmulp : ((10 ^ (decPrec q - 6) : ℕ) : ℚ) * 1000000 = ((10 ^ decPrec q : ℕ) : ℚ) := by
          push_cast
          rw [show (1000000 : ℚ) = 10 ^ 6 by norm_num, ← pow_add]
          congr 1
          omega
        have step : q * 1000000 * ((10 ^ decPrec q : ℕ) : ℚ) <
            1 * ((10 ^ decPrec q : ℕ) : ℚ) := by
          have h1 := mul_lt_mul_of_pos_right hq6 (show (0:ℚ) < 1000000 by norm_num)
          calc q * 1000000 * ((10 ^ decPrec q : ℕ) : ℚ)
              = q * ((10 ^ decPrec q : ℕ) : ℚ) * 1000000 := by ring
            _ < ((10 ^ (decPrec q - 6) : ℕ) : ℚ) * 1000000 := h1
            _ = ((10 ^ decPrec q : ℕ) : ℚ) := hmulp
            _ = 1 * ((10 ^ decPrec q : ℕ) : ℚ) := (one_mul _).symm
        have hqm : q * 1000000 < 1 := lt_of_mul_lt_mul_right step hP.le
        have h1' : (1 : ℚ) ≤ q * 1000000 := by
          rw [div_le_iff₀ (show (0:ℚ) < 1000000 by norm_num)] at h6
          linarith
        linarith
      · rw [if_neg hneg]
  refine ⟨?_, key⟩
  have hd : q.den ∣ 10 ^ decPrec q := (den_mul_pow_eq_one_iff q _).mp hsm
  exact (den_mul_pow_eq_one_iff q _).mpr (hd.trans (pow_dvd_pow 10 key))

/-- Positive values below 1e-6 render in exponential notation with too
few characters after the point, so `number * 10^precision` is never
integral: `BigInt` of it throws. -/
lemma small_prec_throws (q : ℚ) (h0 : 0 < q) (hq6 : q < 1 / 1000000) :
    (q * ((10 ^ getPrecision q : ℕ) : ℚ)).den ≠ 1 := by
  intro hcon
  have hd : q.den ∣ 10 ^ getPrecision q := (den_mul_pow_eq_one_iff q _).mp hcon
  obtain ⟨hsm', h2, h5⟩ := dvd_pow_ten_facts q.den _ q.pos hd
  have hge : decPrec q ≤ getPrecision q := max_le h2 h5
  have hsm : (q * ((10 ^ decPrec q : ℕ) : ℚ)).den = 1 :=
    (den_mul_pow_eq_one_iff q _).mpr
      (dvd_pow_ten_of_le q.den _ hsm' (le_max_left _ _) (le_max_right _ _))
  obtain ⟨hval, hN1, htz, hlo, hhi⟩ := sig_decomp q h0 hsm
  have h1q : (1 : ℚ) ≤ q * ((10 ^ decPrec q : ℕ) : ℚ) := by
    rw [← hval]
    exact_mod_cast hN1
  have hp7 : 7 ≤ decPrec q := by
    by_contra hcp
    push_neg at hcp
    have hle6 : ((10 ^ decPrec q : ℕ) : ℚ) ≤ 1000000 := by
      calc ((10 ^ decPrec q : ℕ) : ℚ) ≤ ((10 ^ 6 : ℕ) : ℚ) := by
            exact_mod_cast Nat.pow_le_pow_right (by norm_num) (by omega)
        _ = 1000000 := by norm_num
    have hq1 : (1 : ℚ) ≤ q * 1000000 :=
      le_trans h1q (mul_le_mul_of_nonneg_left hle6 h0.le)
    rw [lt_div_iff₀ (show (0:ℚ) < 1000000 by norm_num)] at hq6
    linarith
  have ht0 : tzCount q = 0 := htz (by omega)
  have hup : sigNat q < 10 ^ (decPrec q - 6) := by
    have hq' : q * ((10 ^ decPrec q : ℕ) : ℚ) <
        (1 / 1000000) * ((10 ^ decPrec q : ℕ) : ℚ) :=
      mul_lt_mul_of_pos_right hq6 (by positivity)
    have heq : (1 / 1000000 : ℚ) * ((10 ^ decPrec q : ℕ) : ℚ) =
        ((10 ^ (decPrec q - 6) : ℕ) : ℚ) := by
      push_cast
      rw [show (1000000 : ℚ) = 10 ^ 6 by norm_num]
      rw [div_mul_eq_mul_div, one_mul]
      rw [eq_comm, eq_div_iff (by positivity : (10 : ℚ) ^ 6 ≠ 0)]
      rw [← pow_add]
      congr 1
      omega
    rw [heq] at hq'
    rw [← hval] at hq'
    exact_mod_cast hq'
  have hkb : sigLen q + 6 ≤ decPrec q := by
    have hl : 10 ^ (sigLen q - 1) ≤ sigNat q := by
      have := hlo
      rw [ht0, Nat.add_zero] at this
      exact this
    have hlt2 := lt_of_le_of_lt hl hup
    have hexp := (Nat.pow_lt_pow_iff_right (show 1 < 10 by norm_num)).mp hlt2
    have hk1 := digitCount_pos (sigNat q / 10 ^ tzCount q)
    have hkpos : 1 ≤ sigLen q := hk1
    omega
  have hpos6 : decPos q ≤ -6 := by
    unfold decPos
    rw [ht0]
    push_cast
    omega
  have hltg : getPrecision q < decPrec q := by
    unfold getPrecision
    rw [if_neg h0.ne', if_neg (show ¬ 21 < decPos q by omega), if_pos hpos6]
    by_cases hk1 : sigLen q = 1
    · rw [if_pos hk1]
      omega
    · rw [if_neg hk1]
      have hmeq : (1 - decPos q).toNat = decPrec q - sigLen q + 1 := by
        unfold decPos
        rw [ht0]
        omega
      rw [hmeq]
      have hd2 := digitCount_add_two_lt (decPrec q - sigLen q + 1) (by omega)
      have hkpos : 1 ≤ sigLen q := digitCount_pos _
      omega
  omega

/-- Positivity of every unit multiplier. -/
lemma unitMultiplier_val_pos : ∀ ru : RUnit, 0 < (unitMultiplier ru).val := by
  intro ru
  cases ru <;> norm_num [unitMultiplier, JSNum.val]

lemma resolveMultiplier_val_pos : ∀ un : Option RUnit, 0 < (resolveMultiplier un).val
  | none => by norm_num [resolveMultiplier, JSNum.val]
  | some ru => unitMultiplier_val_pos ru

/-- Bigint multipliers are positive. -/
lemma resolveMultiplier_big_pos (un : Option RUnit) (z : ℤ)
    (h : resolveMultiplier un = .big z) : 0 < z := by
  have := resolveMultiplier_val_pos un
  rw [h] at this
  simp only [JSNum.val] at this
  exact_mod_cast this

/-- Floating multipliers are positive. -/
lemma resolveMultiplier_num_pos (un : Option RUnit) (uq : ℚ)
    (h : resolveMultiplier un = .num uq) : 0 < uq := by
  have := resolveMultiplier_val_pos un
  rw [h] at this
  simpa [JSNum.val] using this

/-- Every floating multiplier is at most 1e15 (`P`). -/
lemma resolveMultiplier_num_le (un : Option RUnit) (uq : ℚ)
    (h : resolveMultiplier un = .num uq) : uq ≤ 1000000000000000 := by
  match un with
  | none =>
      have : (1 : ℚ) = uq := JSNum.num.inj h
      rw [← this]
      norm_num
  | some ru =>
      cases ru <;> simp only [resolveMultiplier, unitMultiplier] at h <;>
        first
          | exact JSNum.noConfusion h
          | (cases JSNum.num.inj h; norm_num)

/-- Euclidean division of a floor by a positive integer is the floor of
the rational division. -/
lemma floor_rat_ediv (x : ℚ) (n : ℤ) (hn : 0 < n) : ⌊x / (n : ℚ)⌋ = ⌊x⌋ / n := by
  have hnq : (0 : ℚ) < (n : ℚ) := by exact_mod_cast hn
  apply le_antisymm
  · rw [Int.le_ediv_iff_mul_le hn, Int.le_floor]
    have h1 : (⌊x / (n : ℚ)⌋ : ℚ) ≤ x / n := Int.floor_le _
    have h2 : (⌊x / (n : ℚ)⌋ : ℚ) * n ≤ x := by
      calc (⌊x / (n : ℚ)⌋ : ℚ) * n ≤ (x / n) * n :=
            mul_le_mul_of_nonneg_right h1 hnq.le
        _ = x := div_mul_cancel₀ x hnq.ne'
    push_cast
    exact h2
  · rw [Int.le_floor]
    rw [le_div_iff₀ hnq]
    have h4 : (⌊x⌋ / n) * n ≤ ⌊x⌋ := Int.ediv_mul_le ⌊x⌋ hn.ne'
    calc ((⌊x⌋ / n : ℤ) : ℚ) * n = (((⌊x⌋ / n) * n : ℤ) : ℚ) := by push_cast; ring
      _ ≤ (⌊x⌋ : ℚ) := by exact_mod_cast h4
      _ ≤ x := Int.floor_le x

/-- The bigint value produced by the precision-corrected computation is
the floor of the exact product. -/
lemma tdiv_big_value (q : ℚ) (p : ℕ) (Z : ℤ) (hq : 0 ≤ q) (hZ : 0 < Z)
    (hp1 : (q * ((10 ^ p : ℕ) : ℚ)).den = 1) :
    Int.tdiv ((q * ((10 ^ p : ℕ) : ℚ)).num * Z) ((10 ^ p : ℕ) : ℤ) = ⌊q * (Z : ℚ)⌋ := by
  have hNq : ((q * ((10 ^ p : ℕ) : ℚ)).num : ℚ) = q * ((10 ^ p : ℕ) : ℚ) :=
    Rat.coe_int_num_of_den_eq_one hp1
  have hN : 0 ≤ (q * ((10 ^ p : ℕ) : ℚ)).num := by
    rw [Rat.num_nonneg]
    positivity
  have hpow : (0 : ℤ) ≤ ((10 ^ p : ℕ) : ℤ) := by positivity
  rw [Int.tdiv_eq_ediv (by positivity) hpow]
  rw [← Rat.floor_intCast_div_natCast ((q * ((10 ^ p : ℕ) : ℚ)).num * Z) (10 ^ p)]
  congr 1
  have hpne : ((10 ^ p : ℕ) : ℚ) ≠ 0 := by positivity
  rw [Int.cast_mul, hNq]
  field_simp
  ring

/-- Dividing the floor of `q * Z` by the positive integer `Z` (bigint
division, truncating) recovers the floor of `q` for nonnegative `q`. -/
lemma tdiv_floor_cancel (q : ℚ) (Z : ℤ) (hq : 0 ≤ q) (hZ : 0 < Z) :
    Int.tdiv ⌊q * (Z : ℚ)⌋ Z = ⌊q⌋ := by
  have hZq : (0 : ℚ) < (Z : ℚ) := by exact_mod_cast hZ
  have h1 : 0 ≤ ⌊q * (Z : ℚ)⌋ := Int.floor_nonneg.mpr (by positivity)
  rw [Int.tdiv_eq_ediv h1 hZ.le]
  rw [← floor_rat_ediv (q * (Z : ℚ)) Z hZ]
  congr 1
  field_simp

/-! ### C1: the `parsedResourceToBaseUnit` algorithm -/

/-- C1 (amended).  For a mantissa `q` (nonnegative, as produced by the
parser) whose plain decimal expansion has `p` digits after the decimal
point (characterized spec-side as the least `p` with `q * 10^p`
integral): the multiplier of an absent unit is the floating 1; the units
with arbitrary-precision-integer multipliers are exactly `E`, `Pi`, `Ei`;
on an arbitrary-precision multiplier, for mantissas rendered positionally
by `String` (zero, or at least 1e-6), the result is
`((q * 10^p as integer) * multiplier) / 10^p` in integer arithmetic with
the division truncating toward zero — but a positive fractional mantissa
below 1e-6 is rendered in exponential notation, `getPrecision`
undercounts its fraction digits, and `BigInt(number * 10^precision)`
throws a `RangeError` instead; on a floating multiplier the result is the
floating product when it is at most `MAX_SAFE_INTEGER`, and otherwise the
same corrected integer computation — which requires the multiplier itself
to be integral and fails with a `RangeError` for the fractional
multipliers (units `u`, `m`). -/
theorem c1_toBase_formula (q : ℚ) (un : Option RUnit) (p : ℕ)
    (hq : 0 ≤ q)
    (hp1 : (q * ((10 ^ p : ℕ) : ℚ)).den = 1)
    (hp2 : ∀ k < p, (q * ((10 ^ k : ℕ) : ℚ)).den ≠ 1) :
    resolveMultiplier none = .num 1 ∧
    (∀ u : RUnit, (unitMultiplier u).isBig = true ↔ (u = .E ∨ u = .Pi ∨ u = .Ei)) ∧
    (∀ z : ℤ, resolveMultiplier un = .big z → 1 / 1000000 ≤ q ∨ q = 0 →
      parsedResourceToBaseUnit ⟨q, un⟩ =
        .ok (.big (Int.tdiv ((q * ((10 ^ p : ℕ) : ℚ)).num * z) ((10 ^ p : ℕ) : ℤ)))) ∧
    (∀ z : ℤ, resolveMultiplier un = .big z → 0 < q → q < 1 / 1000000 →
      parsedResourceToBaseUnit ⟨q, un⟩ = .error .rangeError) ∧
    (∀ uq : ℚ, resolveMultiplier un = .num uq →
      (q * uq ≤ maxSafeInteger →
        parsedResourceToBaseUnit ⟨q, un⟩ = .ok (.num (q * uq))) ∧
      (maxSafeInteger < q * uq → uq.den = 1 →
        parsedResourceToBaseUnit ⟨q, un⟩ =
          .ok (.big (Int.tdiv ((q * ((10 ^ p : ℕ) : ℚ)).num * uq.num) ((10 ^ p : ℕ) : ℤ)))) ∧
      (maxSafeInteger < q * uq → uq.den ≠ 1 →
        parsedResourceToBaseUnit ⟨q, un⟩ = .error .rangeError)) := by
  have hdp : decPrec q = p := decPrec_spec q p hp1 hp2
  refine ⟨rfl, ?_, ?_, ?_, ?_⟩
  · intro u
    cases u <;> simp [unitMultiplier, JSNum.isBig]
  · intro z hz h6
    have hzpos : 0 < z := resolveMultiplier_big_pos un z hz
    show (match resolveMultiplier un with
      | JSNum.big z => _
      | JSNum.num uq => _) = _
    rw [hz]
    rcases h6 with h6 | h6
    · have hg := prec_integral_of_ge q h6 (by rw [hdp]; exact hp1)
      simp only [jsBigInt, hg.1, if_pos]
      rw [tdiv_big_value q (getPrecision q) z hq hzpos hg.1,
        tdiv_big_value q p z hq hzpos hp1]
    · subst h6
      have hp0 : p = 0 := by
        by_contra hne
        exact hp2 0 (by omega) (by norm_num)
      subst hp0
      have hgp0 : getPrecision 0 = 0 := by unfold getPrecision; rw [if_pos rfl]
      simp only [hgp0, jsBigInt]
      norm_num
  · intro z hz h0 hsmall
    show (match resolveMultiplier un with
      | JSNum.big z => _
      | JSNum.num uq => _) = _
    rw [hz]
    have hth := small_prec_throws q h0 hsmall
    simp only [jsBigInt]
    rw [if_neg hth]
  · intro uq huq
    have huqpos : 0 < uq := resolveMultiplier_num_pos un uq huq
    refine ⟨?_, ?_, ?_⟩
    · intro hle
      show (match resolveMultiplier un with
        | JSNum.big z => _
        | JSNum.num uq => _) = _
      rw [huq]
      simp only [if_pos hle]
    · intro hgt hden
      have huqle : uq ≤ 1000000000000000 := resolveMultiplier_num_le un uq huq
      have hbig : maxSafeInteger < q * 1000000000000000 :=
        lt_of_lt_of_le hgt (mul_le_mul_of_nonneg_left huqle hq)
      have h6 : 1 / 1000000 ≤ q := by
        rw [show maxSafeInteger = 9007199254740991 from rfl] at hbig
        linarith
      have hg := prec_integral_of_ge q h6 (by rw [hdp]; exact hp1)
      have hznum : 0 < uq.num := Rat.num_pos.mpr huqpos
      show (match resolveMultiplier un with
        | JSNum.big z => _
        | JSNum.num uq => _) = _
      rw [huq]
      simp only [if_neg (not_le.mpr hgt), jsBigInt, hg.1, if_pos, hden]
      rw [tdiv_big_value q (getPrecision q) uq.num hq hznum hg.1,
        tdiv_big_value q p uq.num hq hznum hp1]
    · intro hgt hden
      show (match resolveMultiplier un with
        | JSNum.big z => _
        | JSNum.num uq => _) = _
      rw [huq]
      by_cases hg : (q * ((10 ^ getPrecision q : ℕ) : ℚ)).den = 1
      · simp only [if_neg (not_le.mpr hgt), jsBigInt, hg, if_pos, if_neg hden]
      · simp only [if_neg (not_le.mpr hgt), jsBigInt, if_neg hg]

/-- C1 witness: the claim's own example, mantissa 1.5 with unit `G`,
scales to the floating value 1500000000. -/
theorem c1_witness :
    parsedResourceToBaseUnit ⟨3 / 2, some RUnit.G⟩ =
      .ok (.num ((3 : ℚ) / 2 * 1000000000)) :=
  ((c1_toBase_formula (3 / 2) (some RUnit.G) 1 (by norm_num) (by decide)
      (by decide)).2.2.2.2 _ rfl).1 (by norm_num [maxSafeInteger])

/-- C1 counterexample: mantissa `10^22` with unit `u` has a floating
product `10^16` beyond the safe-integer range, so the claim promises the
exact promoted result `10^16`; the code instead throws a `RangeError`
because `BigInt(1e-6)` is applied to a fractional multiplier. -/
theorem c1_counterexample :
    parsedResourceToBaseUnit ⟨((10 ^ 22 : ℕ) : ℚ), some RUnit.u⟩ = .error .rangeError ∧
    maxSafeInteger < ((10 ^ 22 : ℕ) : ℚ) * (1 / 1000000) := by
  refine ⟨by decide, by decide⟩

/-! ### C2: round-trip through an explicit unit -/

/-- The explicit-unit paths of the two scale functions are the same
code. -/
lemma scale_explicit_eq (x : JSNum) (ru : RUnit) (hru : ru ≠ .empty) :
    scaleBaseUnitCpu x (some ru) = scaleBaseUnitMemory x (some ru) := by
  simp [scaleBaseUnitCpu, scaleBaseUnitMemory, hru]

/-- C2 (amended).  Scaling a base value back with the same explicitly
supplied non-empty unit reproduces the mantissa exactly whenever the base
value is in the floating representation; when the base value took the
arbitrary-precision-integer path, the truncating bigint division returns
`⌊mantissa⌋` instead — exact only for integral mantissas.  (An explicit
`""` unit is falsy in `if (unit)` and would trigger auto-selection
instead.) -/
theorem c2_roundtrip (q : ℚ) (ru : RUnit) (p : ℕ) (B : JSNum)
    (hq : 0 ≤ q)
    (hp1 : (q * ((10 ^ p : ℕ) : ℚ)).den = 1)
    (hp2 : ∀ k < p, (q * ((10 ^ k : ℕ) : ℚ)).den ≠ 1)
    (hru : ru ≠ .empty)
    (hB : parsedResourceToBaseUnit ⟨q, some ru⟩ = .ok B) :
    (∀ v : ℚ, B = .num v →
      scaleBaseUnitCpu B (some ru) = .ok ⟨q, some ru⟩ ∧
      scaleBaseUnitMemory B (some ru) = .ok ⟨q, some ru⟩) ∧
    (∀ z : ℤ, B = .big z →
      scaleBaseUnitCpu B (some ru) = .ok ⟨(⌊q⌋ : ℚ), some ru⟩ ∧
      scaleBaseUnitMemory B (some ru) = .ok ⟨(⌊q⌋ : ℚ), some ru⟩) := by
  have hpos := unitMultiplier_val_pos ru
  have htoB : parsedResourceToBaseUnit ⟨q, some ru⟩ =
      (match unitMultiplier ru with
        | JSNum.big z =>
            match jsBigInt (q * ((10 ^ (getPrecision q) : ℕ) : ℚ)) with
            | .error e => .error e
            | .ok n => .ok (.big (Int.tdiv (n * z) ((10 ^ (getPrecision q) : ℕ) : ℤ)))
        | JSNum.num uq =>
            if q * uq ≤ maxSafeInteger then .ok (.num (q * uq))
            else
              match jsBigInt (q * ((10 ^ (getPrecision q) : ℕ) : ℚ)) with
              | .error e => .error e
              | .ok n =>
                  match jsBigInt uq with
                  | .error e => .error e
                  | .ok um => .ok (.big (Int.tdiv (n * um) ((10 ^ (getPrecision q) : ℕ) : ℤ)))) := rfl
  match hmu : unitMultiplier ru with
  | .big Z =>
      rw [hmu] at htoB hpos
      simp only [JSNum.val] at hpos
      have hZ : 0 < Z := by exact_mod_cast hpos
      rw [htoB] at hB
      by_cases hg : (q * ((10 ^ getPrecision q : ℕ) : ℚ)).den = 1
      case neg =>
        simp only [jsBigInt, if_neg hg] at hB
        exact absurd hB (by simp)
      simp only [jsBigInt, hg, if_pos] at hB
      have hBval : B = .big (Int.tdiv ((q * ((10 ^ getPrecision q : ℕ) : ℚ)).num * Z)
          ((10 ^ getPrecision q : ℕ) : ℤ)) := by
        exact (Except.ok.inj hB).symm
      rw [tdiv_big_value q (getPrecision q) Z hq hZ hg] at hBval
      constructor
      · intro v hv
        rw [hv] at hBval
        exact absurd hBval (by simp)
      · intro z hz
        subst hBval
        have hcpu : scaleBaseUnitCpu (.big ⌊q * (Z : ℚ)⌋) (some ru) =
            .ok ⟨((Int.tdiv ⌊q * (Z : ℚ)⌋ Z : ℤ) : ℚ), some ru⟩ := by
          simp [scaleBaseUnitCpu, hru, explicitMult, JSNum.isBig, hmu, finishScale]
        rw [tdiv_floor_cancel q Z hq hZ] at hcpu
        exact ⟨hcpu, (scale_explicit_eq _ ru hru) ▸ hcpu⟩
  | .num U =>
      rw [hmu] at htoB hpos
      simp only [JSNum.val] at hpos
      have hU : 0 < U := hpos
      by_cases hle : q * U ≤ maxSafeInteger
      · rw [htoB] at hB
        simp only [if_pos hle] at hB
        have hBval : B = .num (q * U) := (Except.ok.inj hB).symm
        constructor
        · intro v hv
          subst hBval
          have hcpu : scaleBaseUnitCpu (.num (q * U)) (some ru) =
              .ok ⟨q * U / U, some ru⟩ := by
            simp [scaleBaseUnitCpu, hru, explicitMult, JSNum.isBig, hmu, finishScale]
          rw [mul_div_cancel_right₀ q hU.ne'] at hcpu
          exact ⟨hcpu, (scale_explicit_eq _ ru hru) ▸ hcpu⟩
        · intro z hz
          rw [hz] at hBval
          exact absurd hBval (by simp)
      · rw [htoB] at hB
        by_cases hg : (q * ((10 ^ getPrecision q : ℕ) : ℚ)).den = 1
        case neg =>
          simp only [if_neg hle, jsBigInt, if_neg hg] at hB
          exact absurd hB (by simp)
        simp only [if_neg hle, jsBigInt, hg, if_pos] at hB
        by_cases hUden : U.den = 1
        · simp only [hUden, if_pos] at hB
          have hUnum : (U.num : ℚ) = U := Rat.coe_int_num_of_den_eq_one hUden
          have hZ : 0 < U.num := by
            rw [Rat.num_pos]
            exact hU
          have hBval : B =
              .big (Int.tdiv ((q * ((10 ^ getPrecision q : ℕ) : ℚ)).num * U.num)
                ((10 ^ getPrecision q : ℕ) : ℤ)) :=
            (Except.ok.inj hB).symm
          rw [tdiv_big_value q (getPrecision q) U.num hq hZ hg] at hBval
          constructor
          · intro v hv
            rw [hv] at hBval
            exact absurd hBval (by simp)
          · intro z hz
            subst hBval
            have hcpu : scaleBaseUnitCpu (.big ⌊q * ((U.num : ℤ) : ℚ)⌋) (some ru) =
                .ok ⟨((Int.tdiv ⌊q * ((U.num : ℤ) : ℚ)⌋ U.num : ℤ) : ℚ), some ru⟩ := by
              simp [scaleBaseUnitCpu, hru, explicitMult, JSNum.isBig, hmu,
                jsBigInt, hUden, finishScale]
            rw [tdiv_floor_cancel q U.num hq hZ] at hcpu
            exact ⟨hcpu, (scale_explicit_eq _ ru hru) ▸ hcpu⟩
        · simp only [hUden, if_neg] at hB
          exact absurd hB (by simp)

/-- C2 witness: 1.5 with unit `G` (floating path) round-trips exactly. -/
theorem c2_witness :
    scaleBaseUnitCpu (.num (3 / 2 * 1000000000)) (some RUnit.G) =
      .ok ⟨3 / 2, some RUnit.G⟩ :=
  ((c2_roundtrip (3 / 2) RUnit.G 1 (.num (3 / 2 * 1000000000)) (by norm_num)
      (by decide) (by decide) (by decide) (by decide)).1 _ rfl).1

/-- C2 counterexample: 9.5 with unit `P` takes the
arbitrary-precision-integer path (9.5e15 exceeds the safe range) and the
round-trip returns 9, not 9.5 — not exact, contrary to the claim. -/
theorem c2_counterexample :
    parsedResourceToBaseUnit ⟨19 / 2, some RUnit.P⟩ = .ok (.big 9500000000000000) ∧
    scaleBaseUnitCpu (.big 9500000000000000) (some RUnit.P) = .ok ⟨9, some RUnit.P⟩ ∧
    (9 : ℚ) ≠ 19 / 2 := ⟨by decide, by decide, by decide⟩

/-! ### C3: automatic unit selection -/

lemma jsTrunc_eq_floor (q : ℚ) (hq : 0 ≤ q) : jsTrunc q = ⌊q⌋ := by
  unfold jsTrunc
  rw [Int.tdiv_eq_ediv (Rat.num_nonneg.mpr hq) (Int.ofNat_nonneg _), Rat.floor_def]

lemma jsTrunc_le (q : ℚ) (hq : 0 ≤ q) : (jsTrunc q : ℚ) ≤ q := by
  rw [jsTrunc_eq_floor q hq]
  exact Int.floor_le q

lemma firstQualifying_stop (x : JSNum) (un : RUnit) (rest : List RUnit)
    (h : scanGE x (unitMultiplier un) = true) :
    firstQualifying x (un :: rest) = some un := by
  cases rest with
  | nil => rfl
  | cons u2 r2 => simp [firstQualifying, h]

lemma firstQualifying_skip (x : JSNum) (un : RUnit) (u2 : RUnit) (r2 : List RUnit)
    (h : scanGE x (unitMultiplier un) = false) :
    firstQualifying x (un :: u2 :: r2) = firstQualifying x (u2 :: r2) := by
  simp [firstQualifying, h]

lemma autoSelect_num_skip (v : ℚ) (un : RUnit) (u2 : RUnit) (r2 : List RUnit)
    (h : scanGE (.num v) (unitMultiplier un) = false) :
    autoSelect (.num v) (un :: u2 :: r2) = autoSelect (.num v) (u2 :: r2) := by
  simp [autoSelect, promoteStep, JSNum.isBig, h]

lemma autoSelect_big_stop_big (z : ℤ) (un : RUnit) (rest : List RUnit) (mz : ℤ)
    (hm : unitMultiplier un = .big mz)
    (h : scanGE (.big z) (unitMultiplier un) = true) :
    autoSelect (.big z) (un :: rest) = .ok (some un, .big mz) := by
  rw [hm] at h
  simp [autoSelect, promoteStep, JSNum.isBig, hm, h]

lemma autoSelect_big_stop_num (z : ℤ) (un : RUnit) (rest : List RUnit) (w : ℚ)
    (hm : unitMultiplier un = .num w) (hw : w.den = 1)
    (h : scanGE (.big z) (unitMultiplier un) = true) :
    autoSelect (.big z) (un :: rest) = .ok (some un, .big w.num) := by
  have hval : ((w.num : ℤ) : ℚ) = w := Rat.coe_int_num_of_den_eq_one hw
  rw [hm] at h
  have hle : w ≤ (z : ℚ) := by simpa [scanGE, JSNum.val] using h
  have h2 : scanGE (JSNum.big z) (JSNum.big w.num) = true := by
    simp only [scanGE, JSNum.val, decide_eq_true_eq]
    rw [hval]
    exact hle
  simp [autoSelect, promoteStep, JSNum.isBig, hm, jsBigInt, hw, h2]

lemma autoSelect_big_skip (z : ℤ) (un : RUnit) (u2 : RUnit) (r2 : List RUnit)
    (hint : (unitMultiplier un).isBig = true ∨
      ∃ w, unitMultiplier un = .num w ∧ w.den = 1)
    (h : scanGE (.big z) (unitMultiplier un) = false) :
    autoSelect (.big z) (un :: u2 :: r2) = autoSelect (.big z) (u2 :: r2) := by
  rcases hint with hbig | ⟨w, hw, hwden⟩
  · match hmu : unitMultiplier un with
    | .big mz =>
        rw [hmu] at h
        simp [autoSelect, promoteStep, JSNum.isBig, hmu, h]
    | .num w => rw [hmu] at hbig; simp [JSNum.isBig] at hbig
  · have hval : ((w.num : ℤ) : ℚ) = w := Rat.coe_int_num_of_den_eq_one hwden
    rw [hw] at h
    have hle : ¬ (w ≤ (z : ℚ)) := by simpa [scanGE, JSNum.val] using h
    have h2 : scanGE (JSNum.big z) (JSNum.big w.num) = false := by
      simp only [scanGE, JSNum.val, decide_eq_false_iff_not]
      rw [hval]
      exact hle
    simp [autoSelect, promoteStep, JSNum.isBig, hw, jsBigInt, hwden, h2]

/-- Over a scan list of floating multipliers, the loop needs no
promotion, never fails, and lands on the first qualifying unit (or the
final fallback). -/
lemma autoSelect_num_allFloat (v : ℚ) :
    ∀ l : List RUnit, l ≠ [] →
    (∀ u' ∈ l, (unitMultiplier u').isBig = false) →
    ∃ sel w, firstQualifying (.num v) l = some sel ∧ unitMultiplier sel = .num w ∧
      autoSelect (.num v) l = .ok (some sel, .num w) := by
  intro l
  induction l with
  | nil => intro h; exact absurd rfl h
  | cons un rest ih =>
      intro _ hall
      have hun := hall un (List.mem_cons_self _ _)
      obtain ⟨w, hw⟩ : ∃ w, unitMultiplier un = .num w := by
        match hmu : unitMultiplier un with
        | .num w => exact ⟨w, rfl⟩
        | .big z => rw [hmu] at hun; simp [JSNum.isBig] at hun
      by_cases hge : scanGE (.num v) (unitMultiplier un) = true
      · refine ⟨un, w, firstQualifying_stop _ _ _ hge, hw, ?_⟩
        simp [autoSelect, promoteStep, JSNum.isBig, hge, hw]
        cases rest <;> simp [hw ▸ hge]
      · rw [Bool.not_eq_true] at hge
        cases rest with
        | nil =>
            refine ⟨un, w, rfl, hw, ?_⟩
            simp [autoSelect, promoteStep, JSNum.isBig, hge, hw]
        | cons u2 r2 =>
            obtain ⟨sel, w2, h1, h2, h3⟩ :=
              ih (by simp) (fun u' hu' => hall u' (List.mem_cons_of_mem _ hu'))
            exact ⟨sel, w2, (firstQualifying_skip _ _ _ _ hge).trans h1, h2,
              (autoSelect_num_skip v un u2 r2 hge).trans h3⟩

lemma scaleCpuAuto_unfold (v : ℚ) (hv : v ≠ 0) :
    scaleBaseUnitCpu (.num v) none =
      (match autoSelect (.num v)
          ((cpuUnits.take (if v < 1 then 3 else cpuUnits.length)).reverse) with
        | .error e => Except.error e
        | .ok sel => finishScale (.num v) sel.1 sel.2) := by
  simp [scaleBaseUnitCpu, scaleCpuAuto, JSNum.val, hv]

lemma scaleMemoryAuto_unfold (x : JSNum) :
    scaleBaseUnitMemory x none =
      (match autoSelect x memoryUnits.reverse with
        | .error e => Except.error e
        | .ok sel => finishScale x sel.1 sel.2) := rfl

lemma scaleCpuAuto_unfold_big (z : ℤ) (hz : 1 ≤ z) :
    scaleBaseUnitCpu (.big z) none =
      (match autoSelect (.big z) cpuUnits.reverse with
        | .error e => Except.error e
        | .ok sel => finishScale (.big z) sel.1 sel.2) := by
  have h0 : ((z : ℚ)) ≠ 0 := by
    have : (1 : ℚ) ≤ (z : ℚ) := by exact_mod_cast hz
    linarith
  have h1 : ¬ ((z : ℚ) < 1) := by
    have : (1 : ℚ) ≤ (z : ℚ) := by exact_mod_cast hz
    linarith
  simp [scaleBaseUnitCpu, scaleCpuAuto, JSNum.val, h0, h1, cpuUnits]

/-- CPU auto-selection for a positive floating value below `10^18`
(so the bigint `E` entry never matches and the scan stays floating). -/
lemma cpu_auto_float (v : ℚ) (h0 : 0 < v) (h18 : v < ((10 ^ 18 : ℕ) : ℚ)) :
    ∃ sel w,
      firstQualifying (.num v)
        ((cpuUnits.take (if v < 1 then 3 else cpuUnits.length)).reverse) = some sel ∧
      unitMultiplier sel = .num w ∧
      scaleBaseUnitCpu (.num v) none = .ok ⟨v / w, some sel⟩ := by
  by_cases h1 : v < 1
  · have hlist : (cpuUnits.take (if v < 1 then 3 else cpuUnits.length)).reverse =
        [RUnit.k, RUnit.m, RUnit.u] := by
      rw [if_pos h1]
      rfl
    obtain ⟨sel, w, hq1, hq2, hq3⟩ :=
      autoSelect_num_allFloat v [RUnit.k, RUnit.m, RUnit.u] (by simp) (by decide)
    refine ⟨sel, w, by rw [hlist]; exact hq1, hq2, ?_⟩
    rw [scaleCpuAuto_unfold v h0.ne', hlist, hq3]
    simp [finishScale]
  · have hlist : (cpuUnits.take (if v < 1 then 3 else cpuUnits.length)).reverse =
        RUnit.E ::
          [RUnit.P, RUnit.T, RUnit.G, RUnit.M, RUnit.empty, RUnit.k, RUnit.m, RUnit.u] := by
      rw [if_neg h1]
      rfl
    have hE : scanGE (.num v) (unitMultiplier RUnit.E) = false := by
      have htr := jsTrunc_le v h0.le
      simp only [unitMultiplier, scanGE, decide_eq_false_iff_not, not_le]
      have h18' : (jsTrunc v : ℚ) < ((10 ^ 18 : ℕ) : ℚ) := lt_of_le_of_lt htr h18
      exact_mod_cast h18'
    obtain ⟨sel, w, hq1, hq2, hq3⟩ :=
      autoSelect_num_allFloat v
        [RUnit.P, RUnit.T, RUnit.G, RUnit.M, RUnit.empty, RUnit.k, RUnit.m, RUnit.u]
        (by simp) (by decide)
    refine ⟨sel, w, ?_, hq2, ?_⟩
    · rw [hlist, firstQualifying_skip _ _ _ _ hE]
      exact hq1
    · rw [scaleCpuAuto_unfold v h0.ne', hlist, autoSelect_num_skip v _ _ _ hE, hq3]
      simp [finishScale]

/-- Memory auto-selection for a positive floating value below `2^50`
(so the bigint `Ei`, `Pi` entries never match). -/
lemma memory_auto_float (v : ℚ) (h0 : 0 < v) (h50 : v < ((2 ^ 50 : ℕ) : ℚ)) :
    ∃ sel w,
      firstQualifying (.num v) memoryUnits.reverse = some sel ∧
      unitMultiplier sel = .num w ∧
      scaleBaseUnitMemory (.num v) none = .ok ⟨v / w, some sel⟩ := by
  have hrev : memoryUnits.reverse =
      RUnit.Ei :: RUnit.Pi :: [RUnit.Ti, RUnit.Gi, RUnit.Mi, RUnit.Ki, RUnit.empty] := rfl
  have htr := jsTrunc_le v h0.le
  have hEi : scanGE (.num v) (unitMultiplier RUnit.Ei) = false := by
    simp only [unitMultiplier, scanGE, decide_eq_false_iff_not, not_le]
    have h60 : v < ((2 ^ 60 : ℕ) : ℚ) := by
      refine lt_of_lt_of_le h50 ?_
      norm_num
    have h60' : (jsTrunc v : ℚ) < ((2 ^ 60 : ℕ) : ℚ) := lt_of_le_of_lt htr h60
    exact_mod_cast h60'
  have hPi : scanGE (.num v) (unitMultiplier RUnit.Pi) = false := by
    simp only [unitMultiplier, scanGE, decide_eq_false_iff_not, not_le]
    have h50' : (jsTrunc v : ℚ) < ((2 ^ 50 : ℕ) : ℚ) := lt_of_le_of_lt htr h50
    exact_mod_cast h50'
  obtain ⟨sel, w, hq1, hq2, hq3⟩ :=
    autoSelect_num_allFloat v [RUnit.Ti, RUnit.Gi, RUnit.Mi, RUnit.Ki, RUnit.empty]
      (by simp) (by decide)
  refine ⟨sel, w, ?_, hq2, ?_⟩
  · rw [hrev, firstQualifying_skip _ _ _ _ hEi, firstQualifying_skip _ _ _ _ hPi]
    exact hq1
  · rw [scaleMemoryAuto_unfold, hrev, autoSelect_num_skip v _ _ _ hEi,
      autoSelect_num_skip v _ _ _ hPi, hq3]
    simp [finishScale]

/-- The loop stops at an arbitrary-precision-multiplier unit for a
floating value when the truncated comparison succeeds. -/
lemma autoSelect_num_stop_big (v : ℚ) (un : RUnit) (rest : List RUnit) (mz : ℤ)
    (hm : unitMultiplier un = .big mz)
    (h : scanGE (.num v) (unitMultiplier un) = true) :
    autoSelect (.num v) (un :: rest) = .ok (some un, .big mz) := by
  rw [hm] at h
  simp [autoSelect, promoteStep, JSNum.isBig, hm, h]

/-- CPU auto-selection for a floating value at or beyond `10^18`: the
scan stops at the bigint `E` entry immediately, and the final mixed
division first converts the floating value with `BigInt` — exact
truncating division for integral values, a `RangeError` for fractional
ones. -/
lemma cpu_auto_float_high (v : ℚ) (hv : ((10 ^ 18 : ℕ) : ℚ) ≤ v) :
    firstQualifying (.num v)
      ((cpuUnits.take (if v < 1 then 3 else cpuUnits.length)).reverse) = some RUnit.E ∧
    scaleBaseUnitCpu (.num v) none =
      (if v.den = 1 then .ok ⟨((Int.tdiv v.num (10 ^ 18) : ℤ) : ℚ), some RUnit.E⟩
       else .error .rangeError) := by
  have h0 : (0 : ℚ) < v := lt_of_lt_of_le (by norm_num) hv
  have h1 : ¬ v < 1 := not_lt.mpr (le_trans (by norm_num) hv)
  have hlist : (cpuUnits.take (if v < 1 then 3 else cpuUnits.length)).reverse =
      RUnit.E ::
        [RUnit.P, RUnit.T, RUnit.G, RUnit.M, RUnit.empty, RUnit.k, RUnit.m, RUnit.u] := by
    rw [if_neg h1]
    rfl
  have hsc : scanGE (.num v) (unitMultiplier RUnit.E) = true := by
    simp only [unitMultiplier, scanGE, decide_eq_true_eq]
    rw [jsTrunc_eq_floor v h0.le, Int.le_floor]
    exact_mod_cast hv
  constructor
  · rw [hlist]
    exact firstQualifying_stop _ _ _ hsc
  · rw [scaleCpuAuto_unfold v h0.ne', hlist,
      autoSelect_num_stop_big v RUnit.E _ (10 ^ 18) rfl hsc]
    simp only [finishScale, jsBigInt]
    by_cases hd : v.den = 1
    · rw [if_pos hd, if_pos hd]
    · rw [if_neg hd, if_neg hd]

/-- Memory auto-selection for a floating value at or beyond `2^50`: the
truncated comparison selects `Ei` or `Pi`, and the final mixed division
first converts the floating value with `BigInt` — a `RangeError` for
fractional values. -/
lemma memory_auto_float_high (v : ℚ) (hv : ((2 ^ 50 : ℕ) : ℚ) ≤ v) :
    ∃ (sel : RUnit) (mz : ℤ),
      firstQualifying (.num v) memoryUnits.reverse = some sel ∧
      unitMultiplier sel = .big mz ∧
      scaleBaseUnitMemory (.num v) none =
        (if v.den = 1 then .ok ⟨((Int.tdiv v.num mz : ℤ) : ℚ), some sel⟩
         else .error .rangeError) := by
  have h0 : (0 : ℚ) < v := lt_of_lt_of_le (by norm_num) hv
  have hrev : memoryUnits.reverse =
      RUnit.Ei :: RUnit.Pi :: [RUnit.Ti, RUnit.Gi, RUnit.Mi, RUnit.Ki, RUnit.empty] := rfl
  have hfin : ∀ (sel : RUnit) (mz : ℤ),
      finishScale (.num v) (some sel) (.big mz) =
        (if v.den = 1 then .ok ⟨((Int.tdiv v.num mz : ℤ) : ℚ), some sel⟩
         else .error .rangeError) := by
    intro sel mz
    simp only [finishScale, jsBigInt]
    by_cases hd : v.den = 1
    · rw [if_pos hd, if_pos hd]
    · rw [if_neg hd, if_neg hd]
  by_cases h60 : ((2 ^ 60 : ℤ)) ≤ jsTrunc v
  · have hsc : scanGE (.num v) (unitMultiplier RUnit.Ei) = true := by
      simp only [unitMultiplier, scanGE, decide_eq_true_eq]
      exact h60
    refine ⟨RUnit.Ei, 2 ^ 60, ?_, rfl, ?_⟩
    · rw [hrev]
      exact firstQualifying_stop _ _ _ hsc
    · rw [scaleMemoryAuto_unfold, hrev,
        autoSelect_num_stop_big v RUnit.Ei _ (2 ^ 60) rfl hsc]
      exact hfin RUnit.Ei (2 ^ 60)
  · have hscEi : scanGE (.num v) (unitMultiplier RUnit.Ei) = false := by
      simp only [unitMultiplier, scanGE, decide_eq_false_iff_not]
      exact h60
    have hscPi : scanGE (.num v) (unitMultiplier RUnit.Pi) = true := by
      simp only [unitMultiplier, scanGE, decide_eq_true_eq]
      rw [jsTrunc_eq_floor v h0.le, Int.le_floor]
      exact_mod_cast hv
    refine ⟨RUnit.Pi, 2 ^ 50, ?_, rfl, ?_⟩
    · rw [hrev, firstQualifying_skip _ _ _ _ hscEi]
      exact firstQualifying_stop _ _ _ hscPi
    · rw [scaleMemoryAuto_unfold, hrev, autoSelect_num_skip v _ _ _ hscEi,
        autoSelect_num_stop_big v RUnit.Pi _ (2 ^ 50) rfl hscPi]
      exact hfin RUnit.Pi (2 ^ 50)

/-- CPU auto-selection for a bigint value `z ≥ 1`: the scan stops at the
no-unit entry at the latest, before the fractional multipliers `m`, `u`
could make the promotion throw. -/
lemma cpu_auto_big (z : ℤ) (hz : 1 ≤ z) :
    ∃ (sel : RUnit) (mz : ℤ),
      firstQualifying (.big z) cpuUnits.reverse = some sel ∧
      (unitMultiplier sel).val = (mz : ℚ) ∧
      scaleBaseUnitCpu (.big z) none = .ok ⟨((Int.tdiv z mz : ℤ) : ℚ), some sel⟩ := by
  have hrev : cpuUnits.reverse = [RUnit.E, RUnit.P, RUnit.T, RUnit.G, RUnit.M, RUnit.empty, RUnit.k, RUnit.m, RUnit.u] := rfl
  rw [scaleCpuAuto_unfold_big z hz, hrev]
  by_cases hc0 : ((1000000000000000000 : ℤ) : ℚ) ≤ (z : ℚ)
  · have hgs0 : scanGE (.big z) (unitMultiplier RUnit.E) = true := by
      simp only [unitMultiplier, scanGE, JSNum.val, decide_eq_true_eq]
      push_cast at hc0 ⊢
      linarith
    refine ⟨RUnit.E, 1000000000000000000, firstQualifying_stop _ _ _ hgs0, by norm_num [unitMultiplier, JSNum.val], ?_⟩
    rw [autoSelect_big_stop_big z RUnit.E _ 1000000000000000000 rfl hgs0]
    simp only [finishScale]
  · have hgs0 : scanGE (.big z) (unitMultiplier RUnit.E) = false := by
      simp only [unitMultiplier, scanGE, JSNum.val, decide_eq_false_iff_not, not_le]
      push_cast at hc0 ⊢
      linarith [lt_of_not_le hc0]
    rw [autoSelect_big_skip z RUnit.E RUnit.P [RUnit.T, RUnit.G, RUnit.M, RUnit.empty, RUnit.k, RUnit.m, RUnit.u] (Or.inl rfl) hgs0,
      firstQualifying_skip _ _ _ _ hgs0]
    by_cases hc1 : ((1000000000000000 : ℤ) : ℚ) ≤ (z : ℚ)
    · have hgs1 : scanGE (.big z) (unitMultiplier RUnit.P) = true := by
        simp only [unitMultiplier, scanGE, JSNum.val, decide_eq_true_eq]
        push_cast at hc1 ⊢
        linarith
      refine ⟨RUnit.P, 1000000000000000, firstQualifying_stop _ _ _ hgs1, by norm_num [unitMultiplier, JSNum.val], ?_⟩
      rw [autoSelect_big_stop_num z RUnit.P _ 1000000000000000 rfl (by norm_num) hgs1]
      simp only [finishScale]
      norm_num
    · have hgs1 : scanGE (.big z) (unitMultiplier RUnit.P) = false := by
        simp only [unitMultiplier, scanGE, JSNum.val, decide_eq_false_iff_not, not_le]
        push_cast at hc1 ⊢
        linarith [lt_of_not_le hc1]
      rw [autoSelect_big_skip z RUnit.P RUnit.T [RUnit.G, RUnit.M, RUnit.empty, RUnit.k, RUnit.m, RUnit.u] (Or.inr ⟨1000000000000000, rfl, by norm_num⟩) hgs1,
        firstQualifying_skip _ _ _ _ hgs1]
      by_cases hc2 : ((1000000000000 : ℤ) : ℚ) ≤ (z : ℚ)
      · have hgs2 : scanGE (.big z) (unitMultiplier RUnit.T) = true := by
          simp only [unitMultiplier, scanGE, JSNum.val, decide_eq_true_eq]
          push_cast at hc2 ⊢
          linarith
        refine ⟨RUnit.T, 1000000000000, firstQualifying_stop _ _ _ hgs2, by norm_num [unitMultiplier, JSNum.val], ?_⟩
        rw [autoSelect_big_stop_num z RUnit.T _ 1000000000000 rfl (by norm_num) hgs2]
        simp only [finishScale]
        norm_num
      · have hgs2 : scanGE (.big z) (unitMultiplier RUnit.T) = false := by
          simp only [unitMultiplier, scanGE, JSNum.val, decide_eq_false_iff_not, not_le]
          push_cast at hc2 ⊢
          linarith [lt_of_not_le hc2]
        rw [autoSelect_big_skip z RUnit.T RUnit.G [RUnit.M, RUnit.empty, RUnit.k, RUnit.m, RUnit.u] (Or.inr ⟨1000000000000, rfl, by norm_num⟩) hgs2,
          firstQualifying_skip _ _ _ _ hgs2]
        by_cases hc3 : ((1000000000 : ℤ) : ℚ) ≤ (z : ℚ)
        · have hgs3 : scanGE (.big z) (unitMultiplier RUnit.G) = true := by
            simp only [unitMultiplier, scanGE, JSNum.val, decide_eq_true_eq]
            push_cast at hc3 ⊢
            linarith
          refine ⟨RUnit.G, 1000000000, firstQualifying_stop _ _ _ hgs3, by norm_num [unitMultiplier, JSNum.val], ?_⟩
          rw [autoSelect_big_stop_num z RUnit.G _ 1000000000 rfl (by norm_num) hgs3]
          simp only [finishScale]
          norm_num
        · have hgs3 : scanGE (.big z) (unitMultiplier RUnit.G) = false := by
            simp only [unitMultiplier, scanGE, JSNum.val, decide_eq_false_iff_not, not_le]
            push_cast at hc3 ⊢
            linarith [lt_of_not_le hc3]
          rw [autoSelect_big_skip z RUnit.G RUnit.M [RUnit.empty, RUnit.k, RUnit.m, RUnit.u] (Or.inr ⟨1000000000, rfl, by norm_num⟩) hgs3,
            firstQualifying_skip _ _ _ _ hgs3]
          by_cases hc4 : ((1000000 : ℤ) : ℚ) ≤ (z : ℚ)
          · have hgs4 : scanGE (.big z) (unitMultiplier RUnit.M) = true := by
              simp only [unitMultiplier, scanGE, JSNum.val, decide_eq_true_eq]
              push_cast at hc4 ⊢
              linarith
            refine ⟨RUnit.M, 1000000, firstQualifying_stop _ _ _ hgs4, by norm_num [unitMultiplier, JSNum.val], ?_⟩
            rw [autoSelect_big_stop_num z RUnit.M _ 1000000 rfl (by norm_num) hgs4]
            simp only [finishScale]
            norm_num
          · have hgs4 : scanGE (.big z) (unitMultiplier RUnit.M) = false := by
              simp only [unitMultiplier, scanGE, JSNum.val, decide_eq_false_iff_not, not_le]
              push_cast at hc4 ⊢
              linarith [lt_of_not_le hc4]
            rw [autoSelect_big_skip z RUnit.M RUnit.empty [RUnit.k, RUnit.m, RUnit.u] (Or.inr ⟨1000000, rfl, by norm_num⟩) hgs4,
              firstQualifying_skip _ _ _ _ hgs4]
            have hgs5 : scanGE (.big z) (unitMultiplier RUnit.empty) = true := by
              simp only [unitMultiplier, scanGE, JSNum.val, decide_eq_true_eq]
              exact_mod_cast hz
            refine ⟨RUnit.empty, 1, firstQualifying_stop _ _ _ hgs5, by norm_num [unitMultiplier, JSNum.val], ?_⟩
            rw [autoSelect_big_stop_num z RUnit.empty _ 1 rfl (by norm_num) hgs5]
            simp only [finishScale]
            norm_num

/-- Memory auto-selection for a bigint value `z ≥ 1`: the scan stops at
the no-unit entry at the latest. -/
lemma memory_auto_big (z : ℤ) (hz : 1 ≤ z) :
    ∃ (sel : RUnit) (mz : ℤ),
      firstQualifying (.big z) memoryUnits.reverse = some sel ∧
      (unitMultiplier sel).val = (mz : ℚ) ∧
      scaleBaseUnitMemory (.big z) none = .ok ⟨((Int.tdiv z mz : ℤ) : ℚ), some sel⟩ := by
  have hrev : memoryUnits.reverse = [RUnit.Ei, RUnit.Pi, RUnit.Ti, RUnit.Gi, RUnit.Mi, RUnit.Ki, RUnit.empty] := rfl
  rw [scaleMemoryAuto_unfold (.big z), hrev]
  by_cases hc0 : ((1152921504606846976 : ℤ) : ℚ) ≤ (z : ℚ)
  · have hgs0 : scanGE (.big z) (unitMultiplier RUnit.Ei) = true := by
      simp only [unitMultiplier, scanGE, JSNum.val, decide_eq_true_eq]
      push_cast at hc0 ⊢
      linarith
    refine ⟨RUnit.Ei, 1152921504606846976, firstQualifying_stop _ _ _ hgs0, by norm_num [unitMultiplier, JSNum.val], ?_⟩
    rw [autoSelect_big_stop_big z RUnit.Ei _ 1152921504606846976 rfl hgs0]
    simp only [finishScale]
  · have hgs0 : scanGE (.big z) (unitMultiplier RUnit.Ei) = false := by
      simp only [unitMultiplier, scanGE, JSNum.val, decide_eq_false_iff_not, not_le]
      push_cast at hc0 ⊢
      linarith [lt_of_not_le hc0]
    rw [autoSelect_big_skip z RUnit.Ei RUnit.Pi [RUnit.Ti, RUnit.Gi, RUnit.Mi, RUnit.Ki, RUnit.empty] (Or.inl rfl) hgs0,
      firstQualifying_skip _ _ _ _ hgs0]
    by_cases hc1 : ((1125899906842624 : ℤ) : ℚ) ≤ (z : ℚ)
    · have hgs1 : scanGE (.big z) (unitMultiplier RUnit.Pi) = true := by
        simp only [unitMultiplier, scanGE, JSNum.val, decide_eq_true_eq]
        push_cast at hc1 ⊢
        linarith
      refine ⟨RUnit.Pi, 1125899906842624, firstQualifying_stop _ _ _ hgs1, by norm_num [unitMultiplier, JSNum.val], ?_⟩
      rw [autoSelect_big_stop_big z RUnit.Pi _ 1125899906842624 rfl hgs1]
      simp only [finishScale]
    · have hgs1 : scanGE (.big z) (unitMultiplier RUnit.Pi) = false := by
        simp only [unitMultiplier, scanGE, JSNum.val, decide_eq_false_iff_not, not_le]
        push_cast at hc1 ⊢
        linarith [lt_of_not_le hc1]
      rw [autoSelect_big_skip z RUnit.Pi RUnit.Ti [RUnit.Gi, RUnit.Mi, RUnit.Ki, RUnit.empty] (Or.inl rfl) hgs1,
        firstQualifying_skip _ _ _ _ hgs1]
      by_cases hc2 : ((1099511627776 : ℤ) : ℚ) ≤ (z : ℚ)
      · have hgs2 : scanGE (.big z) (unitMultiplier RUnit.Ti) = true := by
          simp only [unitMultiplier, scanGE, JSNum.val, decide_eq_true_eq]
          push_cast at hc2 ⊢
          linarith
        refine ⟨RUnit.Ti, 1099511627776, firstQualifying_stop _ _ _ hgs2, by norm_num [unitMultiplier, JSNum.val], ?_⟩
        rw [autoSelect_big_stop_num z RUnit.Ti _ 1099511627776 rfl (by norm_num) hgs2]
        simp only [finishScale]
        norm_num
      · have hgs2 : scanGE (.big z) (unitMultiplier RUnit.Ti) = false := by
          simp only [unitMultiplier, scanGE, JSNum.val, decide_eq_false_iff_not, not_le]
          push_cast at hc2 ⊢
          linarith [lt_of_not_le hc2]
        rw [autoSelect_big_skip z RUnit.Ti RUnit.Gi [RUnit.Mi, RUnit.Ki, RUnit.empty] (Or.inr ⟨1099511627776, rfl, by norm_num⟩) hgs2,
          firstQualifying_skip _ _ _ _ hgs2]
        by_cases hc3 : ((1073741824 : ℤ) : ℚ) ≤ (z : ℚ)
        · have hgs3 : scanGE (.big z) (unitMultiplier RUnit.Gi) = true := by
            simp only [unitMultiplier, scanGE, JSNum.val, decide_eq_true_eq]
            push_cast at hc3 ⊢
            linarith
          refine ⟨RUnit.Gi, 1073741824, firstQualifying_stop _ _ _ hgs3, by norm_num [unitMultiplier, JSNum.val], ?_⟩
          rw [autoSelect_big_stop_num z RUnit.Gi _ 1073741824 rfl (by norm_num) hgs3]
          simp only [finishScale]
          norm_num
        · have hgs3 : scanGE (.big z) (unitMultiplier RUnit.Gi) = false := by
            simp only [unitMultiplier, scanGE, JSNum.val, decide_eq_false_iff_not, not_le]
            push_cast at hc3 ⊢
            linarith [lt_of_not_le hc3]
          rw [autoSelect_big_skip z RUnit.Gi RUnit.Mi [RUnit.Ki, RUnit.empty] (Or.inr ⟨1073741824, rfl, by norm_num⟩) hgs3,
            firstQualifying_skip _ _ _ _ hgs3]
          by_cases hc4 : ((1048576 : ℤ) : ℚ) ≤ (z : ℚ)
          · have hgs4 : scanGE (.big z) (unitMultiplier RUnit.Mi) = true := by
              simp only [unitMultiplier, scanGE, JSNum.val, decide_eq_true_eq]
              push_cast at hc4 ⊢
              linarith
            refine ⟨RUnit.Mi, 1048576, firstQualifying_stop _ _ _ hgs4, by norm_num [unitMultiplier, JSNum.val], ?_⟩
            rw [autoSelect_big_stop_num z RUnit.Mi _ 1048576 rfl (by norm_num) hgs4]
            simp only [finishScale]
            norm_num
          · have hgs4 : scanGE (.big z) (unitMultiplier RUnit.Mi) = false := by
              simp only [unitMultiplier, scanGE, JSNum.val, decide_eq_false_iff_not, not_le]
              push_cast at hc4 ⊢
              linarith [lt_of_not_le hc4]
            rw [autoSelect_big_skip z RUnit.Mi RUnit.Ki [RUnit.empty] (Or.inr ⟨1048576, rfl, by norm_num⟩) hgs4,
              firstQualifying_skip _ _ _ _ hgs4]
            by_cases hc5 : ((1024 : ℤ) : ℚ) ≤ (z : ℚ)
            · have hgs5 : scanGE (.big z) (unitMultiplier RUnit.Ki) = true := by
                simp only [unitMultiplier, scanGE, JSNum.val, decide_eq_true_eq]
                push_cast at hc5 ⊢
                linarith
              refine ⟨RUnit.Ki, 1024, firstQualifying_stop _ _ _ hgs5, by norm_num [unitMultiplier, JSNum.val], ?_⟩
              rw [autoSelect_big_stop_num z RUnit.Ki _ 1024 rfl (by norm_num) hgs5]
              simp only [finishScale]
              norm_num
            · have hgs5 : scanGE (.big z) (unitMultiplier RUnit.Ki) = false := by
                simp only [unitMultiplier, scanGE, JSNum.val, decide_eq_false_iff_not, not_le]
                push_cast at hc5 ⊢
                linarith [lt_of_not_le hc5]
              rw [autoSelect_big_skip z RUnit.Ki RUnit.empty [] (Or.inr ⟨1024, rfl, by norm_num⟩) hgs5,
                firstQualifying_skip _ _ _ _ hgs5]
              have hgs6 : scanGE (.big z) (unitMultiplier RUnit.empty) = true := by
                simp only [unitMultiplier, scanGE, JSNum.val, decide_eq_true_eq]
                exact_mod_cast hz
              refine ⟨RUnit.empty, 1, firstQualifying_stop _ _ _ hgs6, by norm_num [unitMultiplier, JSNum.val], ?_⟩
              rw [autoSelect_big_stop_num z RUnit.empty _ 1 rfl (by norm_num) hgs6]
              simp only [finishScale]
              norm_num

/-- C3 (amended).  With the unit omitted, both scale functions select the
first unit of the actually scanned list (the reversed array prefix —
for CPU the array is `[u,m,k,"",M,G,T,P,E]` with `""` between `k` and `M`,
so `k` can never be auto-selected and values in `[1000, 10^6)` fall
through to the no-unit entry; for values below 1 the CPU scan starts at
`k`) whose multiplier does not exceed the value — bigint base values
compare after promoting the multiplier to bigint, floating base values
compare against a bigint multiplier after truncating toward zero —
falling back to the last scanned unit when no unit qualifies, and the
final division does not truncate on the floating path.  A floating value
at or beyond a bigint multiplier (`10^18` for CPU, `2^50` for memory)
selects that bigint unit via the truncating comparison, and the final
mixed division first converts the floating value with `BigInt`: exact
truncating division for integral values, a `RangeError` for fractional
ones (e.g. `2^50 + 0.25` bytes).  The five concrete formatting facts of
the claim all hold. -/
theorem c3_auto_unit_selection :
    (∀ v : ℚ, 0 < v → v < ((10 ^ 18 : ℕ) : ℚ) →
      ∃ sel w,
        firstQualifying (.num v)
          ((cpuUnits.take (if v < 1 then 3 else cpuUnits.length)).reverse) = some sel ∧
        unitMultiplier sel = .num w ∧
        scaleBaseUnitCpu (.num v) none = .ok ⟨v / w, some sel⟩) ∧
    (∀ v : ℚ, 0 < v → v < ((2 ^ 50 : ℕ) : ℚ) →
      ∃ sel w,
        firstQualifying (.num v) memoryUnits.reverse = some sel ∧
        unitMultiplier sel = .num w ∧
        scaleBaseUnitMemory (.num v) none = .ok ⟨v / w, some sel⟩) ∧
    (∀ z : ℤ, 1 ≤ z →
      ∃ (sel : RUnit) (mz : ℤ),
        firstQualifying (.big z) cpuUnits.reverse = some sel ∧
        (unitMultiplier sel).val = (mz : ℚ) ∧
        scaleBaseUnitCpu (.big z) none = .ok ⟨((Int.tdiv z mz : ℤ) : ℚ), some sel⟩) ∧
    (∀ z : ℤ, 1 ≤ z →
      ∃ (sel : RUnit) (mz : ℤ),
        firstQualifying (.big z) memoryUnits.reverse = some sel ∧
        (unitMultiplier sel).val = (mz : ℚ) ∧
        scaleBaseUnitMemory (.big z) none = .ok ⟨((Int.tdiv z mz : ℤ) : ℚ), some sel⟩) ∧
    (∀ v : ℚ, ((10 ^ 18 : ℕ) : ℚ) ≤ v →
      firstQualifying (.num v)
        ((cpuUnits.take (if v < 1 then 3 else cpuUnits.length)).reverse) = some RUnit.E ∧
      scaleBaseUnitCpu (.num v) none =
        (if v.den = 1 then .ok ⟨((Int.tdiv v.num (10 ^ 18) : ℤ) : ℚ), some RUnit.E⟩
         else .error .rangeError)) ∧
    (∀ v : ℚ, ((2 ^ 50 : ℕ) : ℚ) ≤ v →
      ∃ (sel : RUnit) (mz : ℤ),
        firstQualifying (.num v) memoryUnits.reverse = some sel ∧
        unitMultiplier sel = .big mz ∧
        scaleBaseUnitMemory (.num v) none =
          (if v.den = 1 then .ok ⟨((Int.tdiv v.num mz : ℤ) : ℚ), some sel⟩
           else .error .rangeError)) ∧
    scaleBaseUnitMemory (.num (((2 ^ 50 : ℕ) : ℚ) + 1 / 4)) none = .error .rangeError ∧
    formatBaseUnitCpu (.num (1 / 2)) none = .ok ("500m") ∧
    formatBaseUnitCpu (.num 2000000) none = .ok ("2M") ∧
    formatBaseUnitCpu (.big (10 ^ 17)) none = .ok ("100P") ∧
    formatBaseUnitMemory (.num 1024) none = .ok ("1Ki") ∧
    formatBaseUnitMemory (.num (202782720131072 / 1000000)) none = .ok ("193.388672Mi") :=
  ⟨cpu_auto_float, memory_auto_float, cpu_auto_big, memory_auto_big,
    cpu_auto_float_high, memory_auto_float_high, by decide,
    by decide, by decide, by decide, by decide, by decide⟩

/-- C3 witness: auto-selection for the floating base value 0.5 lands on
`m` with number 500. -/
theorem c3_witness : scaleBaseUnitCpu (.num (1 / 2)) none = .ok ⟨500, some RUnit.m⟩ := by
  obtain ⟨sel, w, h1, h2, h3⟩ :=
    c3_auto_unit_selection.1 (1 / 2) (by norm_num) (by norm_num)
  have h1' : firstQualifying (.num (1 / 2))
      ((cpuUnits.take (if (1 : ℚ) / 2 < 1 then 3 else cpuUnits.length)).reverse) =
        some RUnit.m := by decide
  rw [h1'] at h1
  cases Option.some.inj h1
  have h2' : (1 : ℚ) / 1000 = w := by
    have := h2
    rw [show unitMultiplier RUnit.m = .num (1 / 1000) from rfl] at this
    exact JSNum.num.inj this
  rw [h3, ← h2']
  norm_num

/-- C3 counterexample: for base value 5000 the largest CPU unit whose
multiplier does not exceed the value is `k` (multiplier 1000), so the
claim requires `{5, k}`; the code's scan meets the no-unit entry (placed
between `k` and `M` in the array) first and returns `{5000, no unit}`. -/
theorem c3_counterexample :
    scaleBaseUnitCpu (.num 5000) none = .ok ⟨5000, some RUnit.empty⟩ ∧
    (unitMultiplier RUnit.k).val ≤ 5000 ∧
    (∀ u' ∈ cpuUnits, (unitMultiplier u').val ≤ 5000 →
      (unitMultiplier u').val ≤ (unitMultiplier RUnit.k).val) ∧
    RUnit.empty ≠ RUnit.k :=
  ⟨by decide, by decide, by decide, by decide⟩



/-! ### C4: error behaviour -/

lemma unitMultiplier_num_den_one (ru : RUnit) (h1 : ru ≠ .u) (h2 : ru ≠ .m) :
    ∀ w : ℚ, unitMultiplier ru = .num w → w.den = 1 := by
  cases ru <;> intro w hw <;> first
    | exact absurd rfl h1
    | exact absurd rfl h2
    | exact JSNum.noConfusion hw
    | (cases JSNum.num.inj hw; decide)

/-- Totality of `parsedResourceToBaseUnit` when no fractional multiplier
has to pass through `BigInt` and the mantissa is rendered positionally. -/
lemma toBase_ok_of_integral (q : ℚ) (un : Option RUnit) (p : ℕ)
    (hp1 : (q * ((10 ^ p : ℕ) : ℚ)).den = 1)
    (hp2 : ∀ k < p, (q * ((10 ^ k : ℕ) : ℚ)).den ≠ 1)
    (h6 : 1 / 1000000 ≤ q ∨ q = 0)
    (hint : ∀ w : ℚ, resolveMultiplier un = .num w → w.den = 1) :
    ∃ B, parsedResourceToBaseUnit ⟨q, un⟩ = .ok B := by
  have hdp : decPrec q = p := decPrec_spec q p hp1 hp2
  have hg1 : (q * ((10 ^ getPrecision q : ℕ) : ℚ)).den = 1 := by
    rcases h6 with h6 | h6
    · exact (prec_integral_of_ge q h6 (by rw [hdp]; exact hp1)).1
    · subst h6
      have hgp0 : getPrecision 0 = 0 := by unfold getPrecision; rw [if_pos rfl]
      rw [hgp0]
      norm_num
  show ∃ B, (match resolveMultiplier un with
    | JSNum.big z => _
    | JSNum.num uq => _) = Except.ok B
  match hmu : resolveMultiplier un with
  | .big z =>
      refine ⟨.big (Int.tdiv ((q * ((10 ^ getPrecision q : ℕ) : ℚ)).num * z)
        ((10 ^ getPrecision q : ℕ) : ℤ)), ?_⟩
      simp only [jsBigInt, hg1, if_pos]
  | .num uq =>
      by_cases hle : q * uq ≤ maxSafeInteger
      · refine ⟨.num (q * uq), ?_⟩
        simp only [if_pos hle]
      · have hd := hint uq hmu
        refine ⟨.big (Int.tdiv ((q * ((10 ^ getPrecision q : ℕ) : ℚ)).num * uq.num)
          ((10 ^ getPrecision q : ℕ) : ℤ)), ?_⟩
        simp only [if_neg hle, jsBigInt, hg1, hd, if_pos]

/-- For positive mantissas below 1e-6 the exponential rendering makes the
base conversion throw exactly on the arbitrary-precision multipliers;
floating multipliers keep the product far inside the safe range. -/
lemma toBase_small (q : ℚ) (un : Option RUnit) (h0 : 0 < q) (hq6 : q < 1 / 1000000) :
    ((resolveMultiplier un).isBig = true →
      parsedResourceToBaseUnit ⟨q, un⟩ = .error .rangeError) ∧
    ((resolveMultiplier un).isBig = false →
      ∃ B, parsedResourceToBaseUnit ⟨q, un⟩ = .ok B) := by
  constructor
  · intro hbig
    match hmu : resolveMultiplier un with
    | .num uq =>
        rw [hmu] at hbig
        simp [JSNum.isBig] at hbig
    | .big z =>
        show (match resolveMultiplier un with
          | JSNum.big z => _
          | JSNum.num uq => _) = _
        rw [hmu]
        have hth := small_prec_throws q h0 hq6
        simp only [jsBigInt]
        rw [if_neg hth]
  · intro hnum
    match hmu : resolveMultiplier un with
    | .big z =>
        rw [hmu] at hnum
        simp [JSNum.isBig] at hnum
    | .num uq =>
        have h1 := resolveMultiplier_num_le un uq hmu
        have h2 := resolveMultiplier_num_pos un uq hmu
        have hle : q * uq ≤ maxSafeInteger := by
          have hstep : q * uq ≤ q * 1000000000000000 :=
            mul_le_mul_of_nonneg_left h1 h0.le
          have hstep2 : q * 1000000000000000 < (1 / 1000000) * 1000000000000000 :=
            mul_lt_mul_of_pos_right hq6 (by norm_num)
          rw [show maxSafeInteger = 9007199254740991 from rfl]
          nlinarith
        refine ⟨.num (q * uq), ?_⟩
        show (match resolveMultiplier un with
          | JSNum.big z => _
          | JSNum.num uq => _) = _
        rw [hmu]
        simp only [if_pos hle]

/-- C4 (amended).  The compositions propagate the parser's `FormatError`
unchanged (no wrapping, no swallowing), and no partial results are ever
returned on failure; the arithmetic operations complete without error as
long as no fractional value has to pass through a `BigInt` conversion:
`parsedResourceToBaseUnit` completes when the unit's multiplier is
integral or absent AND the mantissa is zero or at least 1e-6 (a positive
fractional mantissa below 1e-6 is rendered in exponential notation by
`String`, `getPrecision` undercounts its fraction digits, and the
conversion throws a `RangeError` on every arbitrary-precision-multiplier
unit — while on floating multipliers such tiny mantissas always stay in
the safe range and complete), the promotion path throws for units `u` and
`m`, any mantissa whose floating product stays within
`MAX_SAFE_INTEGER` completes on a floating multiplier, auto-scaling
completes for positive floating values below the bigint multipliers, and
floating `add` and the pure formatting of a parsed resource always
complete. -/
theorem c4_parser_only_failure :
    (∀ (s : String) (e : JsError), parseResource s = .error e →
      resourceStringToBaseUnit s = .error e) ∧
    (∀ (s t : String) (e : JsError), parseResource s = .error e →
      compareResourceStrings s t = .error e) ∧
    (∀ (s t : String) (r : K8sParsedResource) (e : JsError),
      parseResource s = .ok r → parseResource t = .error e →
      compareResourceStrings s t = .error e) ∧
    (∀ (q : ℚ) (un : Option RUnit) (p : ℕ),
      (q * ((10 ^ p : ℕ) : ℚ)).den = 1 →
      (∀ k < p, (q * ((10 ^ k : ℕ) : ℚ)).den ≠ 1) →
      (∀ ru, un = some ru → ru ≠ RUnit.u ∧ ru ≠ RUnit.m) →
      1 / 1000000 ≤ q ∨ q = 0 →
      ∃ B, parsedResourceToBaseUnit ⟨q, un⟩ = .ok B) ∧
    (∀ (q : ℚ) (un : Option RUnit), 0 < q → q < 1 / 1000000 →
      ((resolveMultiplier un).isBig = true →
        parsedResourceToBaseUnit ⟨q, un⟩ = .error .rangeError) ∧
      ((resolveMultiplier un).isBig = false →
        ∃ B, parsedResourceToBaseUnit ⟨q, un⟩ = .ok B)) ∧
    (∀ (q uq : ℚ) (un : Option RUnit), resolveMultiplier un = .num uq →
      q * uq ≤ maxSafeInteger →
      parsedResourceToBaseUnit ⟨q, un⟩ = .ok (.num (q * uq))) ∧
    (∀ v : ℚ, 0 < v → v < ((10 ^ 18 : ℕ) : ℚ) →
      ∃ r, scaleBaseUnitCpu (.num v) none = .ok r) ∧
    (∀ v : ℚ, 0 < v → v < ((2 ^ 50 : ℕ) : ℚ) →
      ∃ r, scaleBaseUnitMemory (.num v) none = .ok r) ∧
    (∀ a b : ℚ, ∃ c, add (.num a) (.num b) = .ok c) ∧
    (∀ r : K8sParsedResource, ∃ s, formatParsedResource r = s) := by
  refine ⟨?_, ?_, ?_, ?_, fun q un h0 h6 => toBase_small q un h0 h6, ?_, ?_, ?_,
    fun a b => ⟨_, rfl⟩, fun r => ⟨_, rfl⟩⟩
  · intro s e h
    simp [resourceStringToBaseUnit, h]
  · intro s t e h
    simp [compareResourceStrings, h]
  · intro s t r e hok herr
    simp [compareResourceStrings, hok, herr]
  · intro q un p hp1 hp2 hunit h6
    refine toBase_ok_of_integral q un p hp1 hp2 h6 ?_
    intro w hw
    match un with
    | none =>
        have : JSNum.num 1 = JSNum.num w := hw
        cases JSNum.num.inj this
        decide
    | some ru =>
        have hru := hunit ru rfl
        exact unitMultiplier_num_den_one ru hru.1 hru.2 w hw
  · intro q uq un hmu hle
    show (match resolveMultiplier un with
      | JSNum.big z => _
      | JSNum.num uq => _) = _
    rw [hmu]
    simp only [if_pos hle]
  · intro v h0 h18
    obtain ⟨sel, w, _, _, h3⟩ := cpu_auto_float v h0 h18
    exact ⟨_, h3⟩
  · intro v h0 h50
    obtain ⟨sel, w, _, _, h3⟩ := memory_auto_float v h0 h50
    exact ⟨_, h3⟩

/-- C4 witness: `0.5k` is integral-multiplier and in the positional
regime, so the conversion completes. -/
theorem c4_witness : ∃ B, parsedResourceToBaseUnit ⟨1 / 2, some RUnit.k⟩ = .ok B :=
  c4_parser_only_failure.2.2.2.1 (1 / 2) (some RUnit.k) 1 (by decide) (by decide)
    (fun ru h => by cases Option.some.inj h; exact ⟨by decide, by decide⟩)
    (Or.inl (by norm_num))

/-- C4 counterexample: two parseable strings on which non-parser
operations still throw.  The first parses and then throws `RangeError` in
`parsedResourceToBaseUnit` (`BigInt(0.001)` on the promotion path); the
second parses to mantissa 1e-7, whose `String` rendering "1e-7" makes
`getPrecision` return 0, so `BigInt(1e-7)` throws although the multiplier
`E` is integral. -/
theorem c4_counterexample :
    (∃ r, parseResource ("10000000000000000000m") = .ok r) ∧
    resourceStringToBaseUnit ("10000000000000000000m") = .error .rangeError ∧
    (∃ r, parseResource ("0.0000001E") = .ok r) ∧
    resourceStringToBaseUnit ("0.0000001E") = .error .rangeError :=
  ⟨⟨⟨((10 ^ 19 : ℕ) : ℚ), some RUnit.m⟩, by decide⟩, by decide,
    ⟨⟨1 / 10 ^ 7, some RUnit.E⟩, by decide⟩, by decide⟩

/-! ### C5: ordering properties of the comparator -/

lemma jsNumToBig_val (B : JSNum) (z : ℤ) (h : jsNumToBig B = .ok z) : (z : ℚ) = B.val := by
  cases B with
  | big w =>
      cases Except.ok.inj h
      rfl
  | num q =>
      have h' : jsBigInt q = .ok z := h
      unfold jsBigInt at h'
      by_cases hd : q.den = 1
      · rw [if_pos hd] at h'
        cases Except.ok.inj h'
        exact Rat.coe_int_num_of_den_eq_one hd
      · rw [if_neg hd] at h'
        exact absurd h' (by simp)

lemma compare_slow_error_left (a b : K8sParsedResource) (hne : ¬ a.unit = b.unit)
    (e : JsError) (ha : parsedResourceToBaseUnit a = .error e) :
    compareParsedResources a b = .error e := by
  unfold compareParsedResources
  rw [if_neg hne, ha]

lemma compare_slow_error_right (a b : K8sParsedResource) (hne : ¬ a.unit = b.unit)
    (Ba : JSNum) (ha : parsedResourceToBaseUnit a = .ok Ba)
    (e : JsError) (hb : parsedResourceToBaseUnit b = .error e) :
    compareParsedResources a b = .error e := by
  unfold compareParsedResources
  rw [if_neg hne, ha, hb]

lemma compare_unfold_slow (a b : K8sParsedResource) (hne : ¬ a.unit = b.unit)
    (Ba Bb : JSNum) (ha : parsedResourceToBaseUnit a = .ok Ba)
    (hb : parsedResourceToBaseUnit b = .ok Bb) :
    compareParsedResources a b = slowCompare Ba Bb := by
  unfold compareParsedResources
  rw [if_neg hne, ha, hb]

/-- Flipping the operands of the inlined three-way comparison negates
it. -/
lemma cmp_flip {α : Type} [LinearOrder α] (x y : α) (k : ℤ)
    (hk : (if x = y then (0 : ℤ) else if y < x then 1 else -1) = k) :
    (if y = x then (0 : ℤ) else if x < y then 1 else -1) = -k := by
  rcases lt_trichotomy x y with hlt | heq | hgt
  · rw [if_neg hlt.ne, if_neg (not_lt.mpr hlt.le)] at hk
    rw [if_neg hlt.ne', if_pos hlt, ← hk]
    norm_num
  · subst heq
    rw [if_pos rfl] at hk
    rw [if_pos rfl, ← hk]
    norm_num
  · rw [if_neg hgt.ne', if_pos hgt] at hk
    rw [if_neg hgt.ne, if_neg (not_lt.mpr hgt.le), ← hk]

/-- Multiplying both operands by a positive factor preserves the three-way
comparison. -/
lemma cmp_mul_right (x y V : ℚ) (hV : 0 < V) :
    (if x = y then (0 : ℤ) else if y < x then 1 else -1) = cmpSign (x * V) (y * V) := by
  unfold cmpSign
  rcases lt_trichotomy x y with hlt | heq | hgt
  · have hm := mul_lt_mul_of_pos_right hlt hV
    rw [if_neg hlt.ne, if_neg (not_lt.mpr hlt.le), if_neg hm.ne, if_neg (not_lt.mpr hm.le)]
  · subst heq
    simp
  · have hm := mul_lt_mul_of_pos_right hgt hV
    rw [if_neg hgt.ne', if_pos hgt, if_neg hm.ne', if_pos hm]

/-- The inlined three-way comparison of two integers is `cmpSign` of
their rational casts. -/
lemma intCmp_eq_cmpSign (za zb : ℤ) :
    (if za = zb then (0 : ℤ) else if zb < za then 1 else -1) =
      cmpSign ((za : ℚ)) ((zb : ℚ)) := by
  unfold cmpSign
  rcases lt_trichotomy za zb with h | h | h
  · rw [if_neg h.ne, if_neg (not_lt.mpr h.le), if_neg (by exact_mod_cast h.ne),
      if_neg (not_lt.mpr (by exact_mod_cast h.le))]
  · subst h
    simp
  · rw [if_neg h.ne', if_pos h, if_neg (by exact_mod_cast h.ne'),
      if_pos (by exact_mod_cast h)]

/-- When the slow comparison succeeds, its value is `cmpSign` of the
values of the two base representations. -/
lemma slowCompare_ok (Ba Bb : JSNum) (k : ℤ) (h : slowCompare Ba Bb = .ok k) :
    k = cmpSign Ba.val Bb.val := by
  cases Ba with
  | num x =>
      cases Bb with
      | num y =>
          have hk := (Except.ok.inj h).symm
          rw [hk]
          unfold cmpSign JSNum.val
          rfl
      | big zb =>
          have h' : (match jsBigInt x with
              | Except.error e => Except.error e
              | Except.ok zA =>
                  match jsNumToBig (JSNum.big zb) with
                  | Except.error e => Except.error e
                  | Except.ok zB =>
                      Except.ok (if zA = zB then (0 : ℤ) else if zB < zA then 1 else -1)) =
              Except.ok k := h
          cases hza : jsBigInt x with
          | error e =>
              rw [hza] at h'
              exact absurd h' (by simp)
          | ok zA =>
              rw [hza] at h'
              dsimp only [jsNumToBig] at h'
              have hk := (Except.ok.inj h').symm
              have hvA : (zA : ℚ) = (JSNum.num x).val := jsNumToBig_val (JSNum.num x) zA hza
              rw [hk, intCmp_eq_cmpSign, hvA]
              rfl
  | big za =>
      cases Bb with
      | num y =>
          have h' : (match jsNumToBig (JSNum.big za) with
              | Except.error e => Except.error e
              | Except.ok zA =>
                  match jsBigInt y with
                  | Except.error e => Except.error e
                  | Except.ok zB =>
                      Except.ok (if zA = zB then (0 : ℤ) else if zB < zA then 1 else -1)) =
              Except.ok k := h
          dsimp only [jsNumToBig] at h'
          cases hzb : jsBigInt y with
          | error e =>
              rw [hzb] at h'
              exact absurd h' (by simp)
          | ok zB =>
              rw [hzb] at h'
              have hk := (Except.ok.inj h').symm
              have hvB : (zB : ℚ) = (JSNum.num y).val := jsNumToBig_val (JSNum.num y) zB hzb
              rw [hk, intCmp_eq_cmpSign, hvB]
              rfl
      | big zb =>
          have h' : Except.ok (if za = zb then (0 : ℤ) else if zb < za then 1 else -1) =
              Except.ok k := h
          have hk := (Except.ok.inj h').symm
          rw [hk, intCmp_eq_cmpSign]
          rfl

/-- Flipping the operands of a successful slow comparison negates it. -/
lemma slowCompare_flip (Ba Bb : JSNum) (k : ℤ) (h : slowCompare Ba Bb = .ok k) :
    slowCompare Bb Ba = .ok (-k) := by
  cases Ba with
  | num x =>
      cases Bb with
      | num y =>
          exact congrArg Except.ok (cmp_flip x y k (Except.ok.inj h))
      | big zb =>
          have h' : (match jsBigInt x with
              | Except.error e => Except.error e
              | Except.ok zA =>
                  match jsNumToBig (JSNum.big zb) with
                  | Except.error e => Except.error e
                  | Except.ok zB =>
                      Except.ok (if zA = zB then (0 : ℤ) else if zB < zA then 1 else -1)) =
              Except.ok k := h
          show (match jsNumToBig (JSNum.big zb) with
            | Except.error e => Except.error e
            | Except.ok zB =>
                match jsBigInt x with
                | Except.error e => Except.error e
                | Except.ok zA =>
                    Except.ok (if zB = zA then (0 : ℤ) else if zA < zB then 1 else -1)) =
            Except.ok (-k)
          dsimp only [jsNumToBig] at h' ⊢
          cases hza : jsBigInt x with
          | error e =>
              rw [hza] at h'
              exact absurd h' (by simp)
          | ok zA =>
              rw [hza] at h'
              dsimp only at h' ⊢
              exact congrArg Except.ok (cmp_flip zA zb k (Except.ok.inj h'))
  | big za =>
      cases Bb with
      | num y =>
          have h' : (match jsNumToBig (JSNum.big za) with
              | Except.error e => Except.error e
              | Except.ok zA =>
                  match jsBigInt y with
                  | Except.error e => Except.error e
                  | Except.ok zB =>
                      Except.ok (if zA = zB then (0 : ℤ) else if zB < zA then 1 else -1)) =
              Except.ok k := h
          show (match jsBigInt y with
            | Except.error e => Except.error e
            | Except.ok zB =>
                match jsNumToBig (JSNum.big za) with
                | Except.error e => Except.error e
                | Except.ok zA =>
                    Except.ok (if zB = zA then (0 : ℤ) else if zA < zB then 1 else -1)) =
            Except.ok (-k)
          dsimp only [jsNumToBig] at h' ⊢
          cases hzb : jsBigInt y with
          | error e =>
              rw [hzb] at h'
              exact absurd h' (by simp)
          | ok zB =>
              rw [hzb] at h'
              dsimp only at h' ⊢
              exact congrArg Except.ok (cmp_flip za zB k (Except.ok.inj h'))
      | big zb =>
          have h' : Except.ok (if za = zb then (0 : ℤ) else if zb < za then 1 else -1) =
              Except.ok k := h
          show Except.ok (if zb = za then (0 : ℤ) else if za < zb then 1 else -1) =
            Except.ok (-k)
          exact congrArg Except.ok (cmp_flip za zb k (Except.ok.inj h'))

/-- C5 (amended).  The comparator is antisymmetric unconditionally:
`compare a b = ok k` implies `compare b a = ok (-k)`.  Whenever both
computed base values are exact (equal to the mathematical mantissa times
multiplier) and the comparison completes, the result is the three-way
sign of the mathematical base values — hence on that domain the relation
is transitive and returns 0 exactly on numerically equal base values.
On quantities whose base computation truncates, the comparator can
return 0 for mathematically different base values.  The claim's concrete
instances hold: `compare(1Gi, 1024Mi) = 0` and `compare(1Mi, 1M) = 1 ≠ 0`. -/
theorem c5_compare_order :
    (∀ (a b : K8sParsedResource) (k : ℤ),
      compareParsedResources a b = .ok k → compareParsedResources b a = .ok (-k)) ∧
    (∀ (a b : K8sParsedResource) (Ba Bb : JSNum) (k : ℤ),
      parsedResourceToBaseUnit a = .ok Ba → Ba.val = exactBaseVal a →
      parsedResourceToBaseUnit b = .ok Bb → Bb.val = exactBaseVal b →
      compareParsedResources a b = .ok k →
      k = cmpSign (exactBaseVal a) (exactBaseVal b)) ∧
    (∀ x y : ℚ, (cmpSign x y = 0 ↔ x = y) ∧ (cmpSign x y ≤ 0 ↔ x ≤ y)) ∧
    (∀ (a b c : K8sParsedResource) (Ba Bb Bc : JSNum) (kab kbc kac : ℤ),
      parsedResourceToBaseUnit a = .ok Ba → Ba.val = exactBaseVal a →
      parsedResourceToBaseUnit b = .ok Bb → Bb.val = exactBaseVal b →
      parsedResourceToBaseUnit c = .ok Bc → Bc.val = exactBaseVal c →
      compareParsedResources a b = .ok kab →
      compareParsedResources b c = .ok kbc →
      compareParsedResources a c = .ok kac →
      kab ≤ 0 → kbc ≤ 0 → kac ≤ 0) ∧
    compareParsedResources ⟨1, some RUnit.Gi⟩ ⟨1024, some RUnit.Mi⟩ = .ok 0 ∧
    compareParsedResources ⟨1, some RUnit.Mi⟩ ⟨1, some RUnit.M⟩ = .ok 1 ∧
    (1 : ℤ) ≠ 0 := by
  have hsign : ∀ x y : ℚ, (cmpSign x y = 0 ↔ x = y) ∧ (cmpSign x y ≤ 0 ↔ x ≤ y) := by
    intro x y
    unfold cmpSign
    rcases lt_trichotomy x y with h | h | h
    · rw [if_neg h.ne, if_neg (not_lt.mpr h.le)]
      exact ⟨⟨fun hc => absurd hc (by omega), fun hc => absurd hc h.ne⟩,
        ⟨fun _ => h.le, fun _ => by omega⟩⟩
    · subst h
      simp
    · rw [if_neg h.ne', if_pos h]
      exact ⟨⟨fun hc => absurd hc (by omega), fun hc => absurd hc h.ne'⟩,
        ⟨fun hc => absurd hc (by omega), fun hc => absurd hc (not_le.mpr h)⟩⟩
  have hchar : ∀ (a b : K8sParsedResource) (Ba Bb : JSNum) (k : ℤ),
      parsedResourceToBaseUnit a = .ok Ba → Ba.val = exactBaseVal a →
      parsedResourceToBaseUnit b = .ok Bb → Bb.val = exactBaseVal b →
      compareParsedResources a b = .ok k →
      k = cmpSign (exactBaseVal a) (exactBaseVal b) := by
    intro a b Ba Bb k ha hva hb hvb h
    by_cases hu : a.unit = b.unit
    · unfold compareParsedResources at h
      rw [if_pos hu] at h
      have hk := Except.ok.inj h
      have hV : 0 < (resolveMultiplier a.unit).val := resolveMultiplier_val_pos _
      unfold exactBaseVal
      rw [← hu, ← hk]
      exact cmp_mul_right a.number b.number _ hV
    · rw [compare_unfold_slow a b hu Ba Bb ha hb] at h
      have := slowCompare_ok Ba Bb k h
      rw [hva, hvb] at this
      exact this
  refine ⟨?_, hchar, hsign, ?_, by decide, by decide, by decide⟩
  · intro a b k h
    by_cases hu : a.unit = b.unit
    · unfold compareParsedResources at h ⊢
      rw [if_pos hu] at h
      rw [if_pos hu.symm]
      exact congrArg Except.ok (cmp_flip a.number b.number k (Except.ok.inj h))
    · have hu' : ¬ b.unit = a.unit := fun e => hu e.symm
      cases ha : parsedResourceToBaseUnit a with
      | error e =>
          rw [compare_slow_error_left a b hu e ha] at h
          exact absurd h (by simp)
      | ok Ba =>
          cases hb : parsedResourceToBaseUnit b with
          | error e =>
              rw [compare_slow_error_right a b hu Ba ha e hb] at h
              exact absurd h (by simp)
          | ok Bb =>
              rw [compare_unfold_slow a b hu Ba Bb ha hb] at h
              rw [compare_unfold_slow b a hu' Bb Ba hb ha]
              exact slowCompare_flip Ba Bb k h
  · intro a b c Ba Bb Bc kab kbc kac ha hva hb hvb hc hvc hab hbc hac h1 h2
    have e1 := hchar a b Ba Bb kab ha hva hb hvb hab
    have e2 := hchar b c Bb Bc kbc hb hvb hc hvc hbc
    have e3 := hchar a c Ba Bc kac ha hva hc hvc hac
    have l1 : exactBaseVal a ≤ exactBaseVal b := ((hsign _ _).2).mp (by rw [← e1]; exact h1)
    have l2 : exactBaseVal b ≤ exactBaseVal c := ((hsign _ _).2).mp (by rw [← e2]; exact h2)
    rw [e3]
    exact ((hsign _ _).2).mpr (le_trans l1 l2)

/-- C5 witness: the sign characterization applied to `1Gi` vs `1024Mi`
(both base values exact and equal to `2^30`) forces the comparison result
0. -/
theorem c5_witness :
    (0 : ℤ) = cmpSign (exactBaseVal ⟨1, some RUnit.Gi⟩) (exactBaseVal ⟨1024, some RUnit.Mi⟩) :=
  c5_compare_order.2.1 ⟨1, some RUnit.Gi⟩ ⟨1024, some RUnit.Mi⟩
    (.num 1073741824) (.num 1073741824) 0 (by decide) (by decide) (by decide) (by decide)
    (by decide)

/-- C5 counterexample: `{0.3, Pi}` scales to the truncated bigint base
value 337769972052787 (the exact product 0.3 * 2^50 = 337769972052787.2
is not an integer), which the comparator finds equal to the plain
resource `{337769972052787, no unit}` — it returns 0 although the
mathematical base values differ. -/
theorem c5_counterexample :
    compareParsedResources ⟨3 / 10, some RUnit.Pi⟩ ⟨337769972052787, none⟩ = .ok 0 ∧
    parsedResourceToBaseUnit ⟨3 / 10, some RUnit.Pi⟩ = .ok (.big 337769972052787) ∧
    parsedResourceToBaseUnit ⟨337769972052787, none⟩ = .ok (.num 337769972052787) ∧
    exactBaseVal ⟨3 / 10, some RUnit.Pi⟩ ≠ exactBaseVal ⟨337769972052787, none⟩ :=
  ⟨by decide, by decide, by decide, by decide⟩

/-! ### C6: parser failure vs. the grammar -/

lemma takeDigits_append (l : List Char) : (takeDigits l).1 ++ (takeDigits l).2 = l := by
  induction l with
  | nil => rfl
  | cons c cs ih =>
      by_cases h : c.isDigit = true
      · simp [takeDigits, h, ih]
      · simp [takeDigits, h]

lemma takeDigits_digits (l : List Char) : (takeDigits l).1.all Char.isDigit = true := by
  induction l with
  | nil => rfl
  | cons c cs ih =>
      by_cases h : c.isDigit = true
      · simp [takeDigits, h, ih]
      · simp [takeDigits, h]

lemma takeDigits_exact (d r : List Char) (hd : d.all Char.isDigit = true)
    (hr : headOk r = true) : takeDigits (d ++ r) = (d, r) := by
  induction d with
  | nil =>
      cases r with
      | nil => rfl
      | cons c t =>
          simp only [headOk, Bool.not_eq_true'] at hr
          simp [takeDigits, hr]
  | cons c cs ih =>
      simp only [List.all_cons, Bool.and_eq_true] at hd
      simp [takeDigits, hd.1, ih hd.2]

lemma isDigits_of_take (l : List Char) (h : (takeDigits l).1.isEmpty = false) :
    isDigits (takeDigits l).1 = true := by
  simp only [isDigits, Bool.and_eq_true, Bool.not_eq_true']
  exact ⟨h, takeDigits_digits l⟩

lemma lookup_mem_keys {a b : Type} [BEq a] [LawfulBEq a] (t : List (a × b)) (k : a) (v : b)
    (h : List.lookup k t = some v) : k ∈ t.map Prod.fst := by
  induction t with
  | nil => cases h
  | cons p t ih =>
      rcases p with ⟨x, y⟩
      by_cases hk : (k == x) = true
      · have : k = x := eq_of_beq hk
        simp [this]
      · simp only [List.lookup, hk] at h
        simp only [List.map_cons]
        exact List.mem_cons_of_mem _ (ih h)

lemma unitOfChars_mem (u : List Char) (o : Option RUnit) (h : unitOfChars u = some o) :
    u ∈ grammarUnits :=
  lookup_mem_keys unitTokens u o h

lemma unitOfChars_isSome (u : List Char) (hu : u ∈ grammarUnits) :
    (unitOfChars u).isSome = true := by
  fin_cases hu <;> rfl

lemma grammarUnits_unitHead (u : List Char) (hu : u ∈ grammarUnits) : unitHead u = true := by
  fin_cases hu <;> rfl

lemma unitHead_headOk (u : List Char) (hu : unitHead u = true) : headOk u = true := by
  cases u with
  | nil => rfl
  | cons c t =>
      simp only [unitHead, Bool.and_eq_true] at hu
      simp only [headOk]
      exact hu.1.1

/-- parseNumPart soundness: a successful number parse exhibits the grammar
decomposition of the consumed prefix, with the exact parsed value. -/
lemma parseNumPart_sound (l : List Char) (q : ℚ) (r : List Char)
    (h : parseNumPart l = some (q, r)) :
    ∃ d f e, l = d ++ optPart '.' f ++ optPart 'e' e ++ r ∧
      isDigits d = true ∧ (∀ fd, f = some fd → isDigits fd = true) ∧
      (∀ ed, e = some ed → isDigits ed = true) ∧ q = splitValue d f e := by
  simp only [parseNumPart] at h
  split at h
  · exact absurd h (by simp)
  rename_i hne
  rw [Bool.not_eq_true] at hne
  split at h
  · -- fractional part present in the text: d.2 = '.' :: t
    rename_i x t heq1
    split at h
    · -- no digits after the dot: fr = ([], d.2)
      rename_i hfd
      split at h
      · -- 'e' head impossible: d.2 starts with '.'
        rename_i x2 t2 heq2
        dsimp only at heq2
        rw [heq1] at heq2
        simp at heq2
      · -- no exponent either: remainder is d.2 itself
        rename_i x2 hnot
        dsimp only at h
        simp only [Option.some.injEq, Prod.mk.injEq] at h
        obtain ⟨hq, hr⟩ := h
        subst hq
        subst hr
        refine ⟨(takeDigits l).1, none, none, ?_, isDigits_of_take l hne, ?_, ?_, ?_⟩
        · conv_lhs => rw [← takeDigits_append l]
          simp [optPart]
        · intro fd hc; cases hc
        · intro ed hc; cases hc
        · simp [splitValue, natOfDigits]
    · -- digits after the dot: fr = takeDigits t
      rename_i hfd
      rw [Bool.not_eq_true] at hfd
      split at h
      · -- exponent head 'e'
        rename_i x2 t2 heq2
        dsimp only at heq2
        split at h
        · -- no digits after 'e': ex = (0, fr.2)
          rename_i hed
          dsimp only at h
          simp only [Option.some.injEq, Prod.mk.injEq] at h
          obtain ⟨hq, hr⟩ := h
          subst hq
          subst hr
          refine ⟨(takeDigits l).1, some (takeDigits t).1, none, ?_,
            isDigits_of_take l hne, ?_, ?_, ?_⟩
          · conv_lhs => rw [← takeDigits_append l, heq1, ← takeDigits_append t]
            simp [optPart]
          · intro fd hc
            cases hc
            exact isDigits_of_take t hfd
          · intro ed hc; cases hc
          · simp [splitValue, natOfDigits]
        · -- digits after 'e': full split d . fd e ed
          rename_i hed
          rw [Bool.not_eq_true] at hed
          dsimp only at h
          simp only [Option.some.injEq, Prod.mk.injEq] at h
          obtain ⟨hq, hr⟩ := h
          subst hq
          subst hr
          refine ⟨(takeDigits l).1, some (takeDigits t).1, some (takeDigits t2).1, ?_,
            isDigits_of_take l hne, ?_, ?_, ?_⟩
          · conv_lhs =>
              rw [← takeDigits_append l, heq1, ← takeDigits_append t, heq2,
                ← takeDigits_append t2]
            simp [optPart]
          · intro fd hc
            cases hc
            exact isDigits_of_take t hfd
          · intro ed hc
            cases hc
            exact isDigits_of_take t2 hed
          · simp [splitValue, natOfDigits]
      · -- no exponent
        rename_i x2 hnot
        dsimp only at h
        simp only [Option.some.injEq, Prod.mk.injEq] at h
        obtain ⟨hq, hr⟩ := h
        subst hq
        subst hr
        refine ⟨(takeDigits l).1, some (takeDigits t).1, none, ?_,
          isDigits_of_take l hne, ?_, ?_, ?_⟩
        · conv_lhs => rw [← takeDigits_append l, heq1, ← takeDigits_append t]
          simp [optPart]
        · intro fd hc
          cases hc
          exact isDigits_of_take t hfd
        · intro ed hc; cases hc
        · simp [splitValue, natOfDigits]
  · -- no fractional part: fr = ([], d.2)
    rename_i x hnotdot
    split at h
    · -- exponent head 'e'
      rename_i x2 t2 heq2
      dsimp only at heq2
      split at h
      · -- no digits after 'e'
        rename_i hed
        dsimp only at h
        simp only [Option.some.injEq, Prod.mk.injEq] at h
        obtain ⟨hq, hr⟩ := h
        subst hq
        subst hr
        refine ⟨(takeDigits l).1, none, none, ?_, isDigits_of_take l hne, ?_, ?_, ?_⟩
        · conv_lhs => rw [← takeDigits_append l]
          simp [optPart]
        · intro fd hc; cases hc
        · intro ed hc; cases hc
        · simp [splitValue, natOfDigits]
      · -- digits after 'e'
        rename_i hed
        rw [Bool.not_eq_true] at hed
        dsimp only at h
        simp only [Option.some.injEq, Prod.mk.injEq] at h
        obtain ⟨hq, hr⟩ := h
        subst hq
        subst hr
        refine ⟨(takeDigits l).1, none, some (takeDigits t2).1, ?_,
          isDigits_of_take l hne, ?_, ?_, ?_⟩
        · conv_lhs => rw [← takeDigits_append l, heq2, ← takeDigits_append t2]
          simp [optPart]
        · intro fd hc; cases hc
        · intro ed hc
          cases hc
          exact isDigits_of_take t2 hed
        · simp [splitValue, natOfDigits]
    · -- no exponent
      rename_i x2 hnot
      dsimp only at h
      simp only [Option.some.injEq, Prod.mk.injEq] at h
      obtain ⟨hq, hr⟩ := h
      subst hq
      subst hr
      refine ⟨(takeDigits l).1, none, none, ?_, isDigits_of_take l hne, ?_, ?_, ?_⟩
      · conv_lhs => rw [← takeDigits_append l]
        simp [optPart]
      · intro fd hc; cases hc
      · intro ed hc; cases hc
      · simp [splitValue, natOfDigits]

/-- parseNumPart completeness: on a string shaped by the grammar, the
greedy number parse consumes exactly the number and leaves the unit. -/
lemma parseNumPart_complete (d : List Char) (f e : Option (List Char)) (u : List Char)
    (hd : isDigits d = true)
    (hf : ∀ fd, f = some fd → isDigits fd = true)
    (he : ∀ ed, e = some ed → isDigits ed = true)
    (hu : unitHead u = true) :
    parseNumPart (d ++ optPart '.' f ++ optPart 'e' e ++ u) = some (splitValue d f e, u) := by
  simp only [isDigits, Bool.and_eq_true, Bool.not_eq_true'] at hd
  rcases f with _ | fd
  · rcases e with _ | ed
    · -- no fraction, no exponent: the whole tail is the unit
      simp only [optPart, List.append_nil]
      have h1 : takeDigits (d ++ u) = (d, u) :=
        takeDigits_exact _ _ hd.2 (unitHead_headOk u hu)
      rcases u with _ | ⟨c, t⟩
      · simp only [List.append_nil] at h1
        simp [parseNumPart, h1, hd.1, splitValue, natOfDigits]
      · simp only [unitHead, Bool.and_eq_true, bne_iff_ne] at hu
        obtain ⟨⟨hc1, hc2⟩, hc3⟩ := hu
        simp only [parseNumPart, h1, hd.1]
        rw [if_neg (by simp)]
        split
        · rename_i x t1 heq
          injection heq with hh ht
          exact absurd hh hc3
        split
        · rename_i x t1 heq
          injection heq with hh ht
          exact absurd hh hc2
        simp [splitValue, natOfDigits]
    · -- no fraction, exponent ed
      have hed := he ed rfl
      simp only [isDigits, Bool.and_eq_true, Bool.not_eq_true'] at hed
      simp only [optPart, List.nil_append, List.append_nil, List.append_assoc,
        List.cons_append]
      have h1 : takeDigits (d ++ 'e' :: (ed ++ u)) = (d, 'e' :: (ed ++ u)) :=
        takeDigits_exact _ _ hd.2 (by rfl)
      have h3 : takeDigits (ed ++ u) = (ed, u) :=
        takeDigits_exact _ _ hed.2 (unitHead_headOk u hu)
      simp [parseNumPart, h1, h3, hd.1, hed.1, splitValue, natOfDigits]
  · rcases e with _ | ed
    · -- fraction fd, no exponent
      have hfd := hf fd rfl
      simp only [isDigits, Bool.and_eq_true, Bool.not_eq_true'] at hfd
      simp only [optPart, List.nil_append, List.append_nil, List.append_assoc,
        List.cons_append]
      have h1 : takeDigits (d ++ '.' :: (fd ++ u)) = (d, '.' :: (fd ++ u)) :=
        takeDigits_exact _ _ hd.2 (by rfl)
      have h2 : takeDigits (fd ++ u) = (fd, u) :=
        takeDigits_exact _ _ hfd.2 (unitHead_headOk u hu)
      rcases u with _ | ⟨c, t⟩
      · simp only [List.append_nil] at h1 h2
        simp [parseNumPart, h1, h2, hd.1, hfd.1, splitValue, natOfDigits]
      · simp only [unitHead, Bool.and_eq_true, bne_iff_ne] at hu
        obtain ⟨⟨hc1, hc2⟩, hc3⟩ := hu
        simp only [parseNumPart, h1, h2, hd.1, hfd.1]
        rw [if_neg (by simp)]
        split
        · rename_i hff
          exact absurd hff (by simp)
        split
        · rename_i x t1 heq
          injection heq with hh ht
          exact absurd hh hc2
        simp [splitValue, natOfDigits]
    · -- fraction fd and exponent ed
      have hfd := hf fd rfl
      have hed := he ed rfl
      simp only [isDigits, Bool.and_eq_true, Bool.not_eq_true'] at hfd hed
      simp only [optPart, List.nil_append, List.append_assoc, List.cons_append]
      have h1 : takeDigits (d ++ '.' :: (fd ++ 'e' :: (ed ++ u)))
          = (d, '.' :: (fd ++ 'e' :: (ed ++ u))) :=
        takeDigits_exact _ _ hd.2 (by rfl)
      have h2 : takeDigits (fd ++ 'e' :: (ed ++ u)) = (fd, 'e' :: (ed ++ u)) :=
        takeDigits_exact _ _ hfd.2 (by rfl)
      have h3 : takeDigits (ed ++ u) = (ed, u) :=
        takeDigits_exact _ _ hed.2 (unitHead_headOk u hu)
      simp [parseNumPart, h1, h2, h3, hd.1, hfd.1, hed.1, splitValue, natOfDigits]

/-- Running the parser on a grammar-matching string: the number part
consumes exactly the numeric text and the unit suffix resolves, so the
result is governed solely by the overflow threshold. -/
lemma parseResource_run_of_match (s : String) (d : List Char) (f e : Option (List Char))
    (u : List Char) (hp : grammarParts s.data d f e u) (hu : u ∈ grammarUnits) :
    ∃ o, unitOfChars u = some o ∧
      parseResource s =
        (if jsOverflowThreshold ≤ splitValue d f e then .error (.numberError s)
         else .ok ⟨splitValue d f e, o⟩) := by
  obtain ⟨hsplit, hd, hf, he⟩ := hp
  have hrun := parseNumPart_complete d f e u hd hf he (grammarUnits_unitHead u hu)
  have hsome := unitOfChars_isSome u hu
  rcases ho : unitOfChars u with _ | o
  · rw [ho] at hsome
    cases hsome
  · have hpn : parseNumPart s.data = some (splitValue d f e, u) := by
      rw [hsplit]; exact hrun
    exact ⟨o, rfl, by simp only [parseResource, hpn, ho]⟩

/-- Whenever the parser does not raise the format error, the input
matches the grammar. -/
lemma parseResource_match_of_not_formatError (s : String)
    (h : parseResource s ≠ .error (.formatError s)) : grammarMatch s := by
  rcases hpn : parseNumPart s.data with _ | pr
  · exact absurd (by simp [parseResource, hpn]) h
  rcases pr with ⟨q, rest⟩
  rcases ho : unitOfChars rest with _ | o
  · exact absurd (by simp [parseResource, hpn, ho]) h
  obtain ⟨d, f, e, hsplit, hd, hf, he, hq⟩ := parseNumPart_sound s.data q rest hpn
  exact ⟨d, f, e, rest, ⟨hsplit, hd, hf, he⟩, unitOfChars_mem rest o ho⟩

/-- C6 (amended).  `parseResource` raises its format error ("not a valid
resource string") exactly when the input does not fully match the grammar
(digits, optional `.digits`, optional unsigned `e digits`, optional unit
from the closed 15-token set, whole input consumed — no sign, no
whitespace, no signed exponent), and it returns a result exactly when the
grammar matches AND the numeric part stays below the `parseFloat` overflow
threshold; a grammatically valid number at or beyond the threshold trips
the defensive finiteness check instead of yielding a result.  The three
spec examples `invalid`, `1.2.3`, `5Xi` all fail with the format error,
and no partial result is returned (a thrown error carries no resource). -/
theorem c6_parse_grammar :
    (∀ s : String, parseResource s = .error (.formatError s) ↔ ¬ grammarMatch s) ∧
    (∀ s : String, (∃ res, parseResource s = .ok res) ↔
        (∃ d f e u, grammarParts s.data d f e u ∧ u ∈ grammarUnits ∧
          splitValue d f e < jsOverflowThreshold)) ∧
    parseResource ("invalid") = .error (.formatError ("invalid")) ∧
    parseResource ("1.2.3") = .error (.formatError ("1.2.3")) ∧
    parseResource ("5Xi") = .error (.formatError ("5Xi")) := by
  refine ⟨?_, ?_, by decide, by decide, by decide⟩
  · intro s
    constructor
    · intro hfe hm
      obtain ⟨d, f, e, u, hp, hu⟩ := hm
      obtain ⟨o, ho, hres⟩ := parseResource_run_of_match s d f e u hp hu
      rw [hfe] at hres
      by_cases hle : jsOverflowThreshold ≤ splitValue d f e
      · rw [if_pos hle] at hres
        simp at hres
      · rw [if_neg hle] at hres
        cases hres
    · intro hnm
      by_contra hne
      exact hnm (parseResource_match_of_not_formatError s hne)
  · intro s
    constructor
    · intro hok
      obtain ⟨res, hres⟩ := hok
      have hne : parseResource s ≠ .error (.formatError s) := by
        rw [hres]; intro hc; cases hc
      obtain ⟨d, f, e, u, hp, hu⟩ := parseResource_match_of_not_formatError s hne
      refine ⟨d, f, e, u, hp, hu, ?_⟩
      obtain ⟨o, ho, hrun⟩ := parseResource_run_of_match s d f e u hp hu
      rw [hres] at hrun
      by_cases hle : jsOverflowThreshold ≤ splitValue d f e
      · rw [if_pos hle] at hrun
        cases hrun
      · exact not_le.mp hle
    · intro hm
      obtain ⟨d, f, e, u, hp, hu, hlt⟩ := hm
      obtain ⟨o, ho, hrun⟩ := parseResource_run_of_match s d f e u hp hu
      rw [if_neg (not_le.mpr hlt)] at hrun
      exact ⟨_, hrun⟩

/-- C6 counterexample.  The string "9e308" fully matches the grammar, yet
`parseResource` returns no result: `parseFloat` overflows to `Infinity`
and the defensive check throws its error, so "fails exactly when the
string does not match the grammar" is false of the parse as a whole. -/
theorem c6_counterexample :
    grammarMatch ("9e308") ∧
    (∀ res, parseResource ("9e308") ≠ .ok res) ∧
    parseResource ("9e308") = .error (.numberError ("9e308")) := by
  refine ⟨⟨['9'], none, some ['3', '0', '8'], [],
    ⟨by decide, by decide, ?_, ?_⟩, by decide⟩, ?_, by decide⟩
  · intro fd h
    cases h
  · intro ed h
    injection h with h'
    subst h'
    decide
  · intro res h
    rw [show parseResource ("9e308") = .error (.numberError ("9e308")) by decide] at h
    cases h

/-! ### C7: zero handling -/

/-- C7 (amended).  A zero mantissa scales to base value 0 — in the
floating representation for floating multipliers, but as an
arbitrary-precision-integer 0 for the bigint-multiplier units `E`, `Pi`,
`Ei`; `scaleBaseUnitCpu` with the unit omitted short-circuits any zero
base value to `{number: 0, unit: undefined}` (so `formatBaseUnitCpu 0`
renders "0" with no unit), while `scaleBaseUnitMemory` has no shortcut and
zero falls through to the family's smallest unit (no-unit/byte). -/
theorem c7_zero_handling :
    (∀ un : Option RUnit,
      parsedResourceToBaseUnit ⟨0, un⟩ =
        .ok (if (resolveMultiplier un).isBig then .big 0 else .num 0)) ∧
    (∀ x : JSNum, x.val = 0 → scaleBaseUnitCpu x none = .ok ⟨0, none⟩) ∧
    formatBaseUnitCpu (.num 0) none = .ok ("0") ∧
    scaleBaseUnitMemory (.num 0) none = .ok ⟨0, some .empty⟩ ∧
    formatBaseUnitMemory (.num 0) none = .ok ("0") := by
  refine ⟨?_, ?_, by decide, by decide, by decide⟩
  · intro un
    match un with
    | none => decide
    | some ru => cases ru <;> decide
  · intro x hx
    match x with
    | .num q =>
        have hq : q = 0 := hx
        subst hq
        decide
    | .big z =>
        have hx2 : (z : ℚ) = 0 := hx
        have hz : z = 0 := by exact_mod_cast hx2
        subst hz
        decide

/-- C7 witness: the zero short-circuit applies to the bigint zero as
well (`Number(0n) === 0`). -/
theorem c7_witness : scaleBaseUnitCpu (.big 0) none = .ok ⟨0, none⟩ :=
  c7_zero_handling.2.1 (.big 0) (by decide)

/-- C7 counterexample: for unit `E` the zero base value is produced in
the arbitrary-precision-integer representation, not the floating one the
claim states. -/
theorem c7_counterexample :
    parsedResourceToBaseUnit ⟨0, some RUnit.E⟩ = .ok (.big 0) ∧
    JSNum.big 0 ≠ JSNum.num 0 := ⟨by decide, by decide⟩

/-! ### C8: `add` promotion -/

/-- C8 (amended).  `add` promotes to arbitrary-precision integers when
either operand is one, yielding the exact sum — provided a floating
operand is integral, since the promotion applies `BigInt` to it and a
fractional floating operand makes the addition fail with a `RangeError`
instead; two floating operands are added as floating values, so
`add 1.5 2.5 = 4` stays floating. -/
theorem c8_add_promotion (z : ℤ) (q : ℚ) :
    (q.den = 1 →
      add (.big z) (.num q) = .ok (.big (z + q.num)) ∧
      add (.num q) (.big z) = .ok (.big (q.num + z))) ∧
    (q.den ≠ 1 →
      add (.big z) (.num q) = .error .rangeError ∧
      add (.num q) (.big z) = .error .rangeError) ∧
    (∀ w : ℤ, add (.big z) (.big w) = .ok (.big (z + w))) ∧
    add (.num (3 / 2)) (.num (5 / 2)) = .ok (.num 4) := by
  refine ⟨?_, ?_, fun w => rfl, by decide⟩
  · intro hden
    constructor <;> simp [add, jsBigInt, hden]
  · intro hden
    constructor <;> simp [add, jsBigInt, hden]

/-- C8 witness: adding a bigint and the integral number 2 promotes to the
exact bigint sum. -/
theorem c8_witness : add (.big 5) (.num 2) = .ok (.big 7) := by
  have h := (c8_add_promotion 5 2).1 (by decide)
  simpa using h.1

/-- C8 counterexample: `add` of a big value and the small fractional
number 0.5 does not yield an exact promoted sum — it throws a
`RangeError` (`BigInt(0.5)`). -/
theorem c8_counterexample :
    add (.big (10 ^ 18)) (.num (1 / 2)) = .error .rangeError := by decide

/-! ### C9: explicit unit with zero base value -/

/-- C9 (amended).  For the floating base value 0 and an explicitly
supplied non-empty unit of the function's family, the scale functions
return `{number: 0, unit}` — the zero short-circuit does not apply — and
`formatBaseUnitCpu 0 {unit: m}` renders "0m".  (For the
arbitrary-precision-integer zero the same holds except for the fractional
multipliers `u`, `m`, where `BigInt(unitMultiplier[unit])` throws.) -/
theorem c9_explicit_unit_zero (ru : RUnit) (hu : ru ≠ .empty) :
    (ru ∈ cpuUnits → scaleBaseUnitCpu (.num 0) (some ru) = .ok ⟨0, some ru⟩) ∧
    (ru ∈ memoryUnits → scaleBaseUnitMemory (.num 0) (some ru) = .ok ⟨0, some ru⟩) ∧
    formatBaseUnitCpu (.num 0) (some RUnit.m) = .ok ("0m") := by
  cases ru
  case empty => exact absurd rfl hu
  all_goals exact ⟨fun _ => by decide, fun _ => by decide, by decide⟩

/-- C9 witness: explicit unit `m` with floating zero renders "0m". -/
theorem c9_witness : scaleBaseUnitCpu (.num 0) (some RUnit.m) = .ok ⟨0, some RUnit.m⟩ :=
  (c9_explicit_unit_zero RUnit.m (by decide)).1 (by decide)

/-- C9 counterexample: with the arbitrary-precision-integer zero (as
produced by `parsedResourceToBaseUnit` of `0E`) and explicit unit `m`,
`scaleBaseUnitCpu` throws instead of returning `{0, m}`. -/
theorem c9_counterexample :
    scaleBaseUnitCpu (.big 0) (some RUnit.m) = .error .rangeError := by decide

/-! ### C10: float-only `add` never promotes -/

/-- C10.  For two floating operands `add` returns the floating sum and
never promotes to the arbitrary-precision representation, whatever the
magnitude of the exact sum (in the real runtime the IEEE-754 rounding of
that floating sum is what silently loses precision beyond 2^53). -/
theorem c10_add_float_no_promotion (a b : ℚ) :
    add (.num a) (.num b) = .ok (.num (a + b)) ∧
    (JSNum.num (a + b)).isBig = false :=
  ⟨rfl, rfl⟩

end KRU
